import Mathlib

/-!
Verification development for the ccpp build driver.

The definitions below are a shallow embedding of the Rust sources:
`src/include_deps.rs` (the include/module scanner), `src/dependency.rs`
(DepFile / Dependency / DepCache and `is_up_to_date`), `src/file_type.rs`,
and `src/builder.rs` (the build scheduler).  Streams are lists of
characters, `HashSet`/`HashMap` are association lists keyed the way the
Rust types hash (DepFile hashes by path only), `Vec` stacks are lists with
the head as the top (pushed slices are reversed so pop order matches), and
loops whose Rust counterpart can run forever take a fuel argument:
`none` models divergence.  Filesystem access, child processes and the
compiler-flag oracle are environment parameters, since the claims hold
for every behaviour of those collaborators.
-/

namespace Ccpp

/-- `Language` from `src/file_type.rs`. -/
inductive Language where
  | c
  | cpp
deriving DecidableEq, Repr

/-- `FileState` from `src/file_type.rs`. -/
inductive FileState where
  | source
  | sourceModule
  | header
  | precompiled
  | object
  | executable
deriving DecidableEq, Repr

/-- `FileType` from `src/file_type.rs`: a language paired with a state. -/
structure FileType where
  lang : Language
  state : FileState
deriving DecidableEq, Repr

/-- `DepFile` from `src/dependency.rs`: a path with an advisory file type.
Paths are modelled as strings.  Rust's `PartialEq`/`Hash` for `DepFile`
look at the path alone, so every map or set of `DepFile`s below compares
paths only. -/
structure DepFile where
  path : String
  typ : Option FileType
deriving DecidableEq, Repr

/-- `Modules` from `src/dependency.rs`: module directives parsed from a
file.  `DepModule` (an `Rc<str>`) is modelled as `String`. -/
structure ModulesRec where
  provides : Option String := none
  imports : List String := []
  exports : List String := []
  user : List DepFile := []
  system : List DepFile := []
  userExports : List DepFile := []
  systemExports : List DepFile := []
deriving DecidableEq, Repr

/-- `Dependency` from `src/dependency.rs`.  The `HashSet<DepFile>` fields
`transitive` and `non_transitive` are modelled as duplicate-free lists in
insertion order; set membership compares paths, as the Rust hash does. -/
structure Dependency where
  file : DepFile
  direct : List DepFile := []
  transitive : List DepFile := []
  nonTransitive : List DepFile := []
  modules : ModulesRec := {}
deriving DecidableEq, Repr

/-- `HashSet<DepFile>::contains`: membership by path, as the Rust `Hash`
and `PartialEq` instances for `DepFile` compare the path alone. -/
def containsPath (l : List DepFile) (f : DepFile) : Bool :=
  l.any (fun x => x.path == f.path)

/-- `HashSet<DepFile>::insert`: no-op when an element with the same path
is already present (Rust keeps the old element), append otherwise. -/
def insertDF (l : List DepFile) (f : DepFile) : List DepFile :=
  if containsPath l f then l else l ++ [f]

/-- `HashSet<DepFile>::extend`: repeated `insert` in iteration order. -/
def extendDF (l : List DepFile) (xs : List DepFile) : List DepFile :=
  xs.foldl insertDF l

/-- `IncFile` from `src/include_deps.rs`: one scanner directive.
`PathBuf` payloads are modelled as strings. -/
inductive IncFile where
  | user (p : String)
  | system (p : String)
  | expModule (m : String)
  | impModule (m : String)
  | expImpModule (m : String)
  | userModule (p : String)
  | systemModule (p : String)
  | expUserModule (p : String)
  | expSystemModule (p : String)
deriving DecidableEq, Repr

/-- Rust `char::is_whitespace` (the Unicode `White_Space` property),
written out character by character. -/
def rustIsWhitespace (c : Char) : Bool :=
  c == ' ' || c == '\t' || c == '\n' || c.toNat == 0x0B || c.toNat == 0x0C ||
  c == '\r' || c.toNat == 0x85 || c.toNat == 0xA0 || c.toNat == 0x1680 ||
  (0x2000 ≤ c.toNat && c.toNat ≤ 0x200A) || c.toNat == 0x2028 ||
  c.toNat == 0x2029 || c.toNat == 0x202F || c.toNat == 0x205F ||
  c.toNat == 0x3000

/-- ASCII fragment of Rust `char::is_alphanumeric`.  The full Unicode
tables are outside the scope of this development; every character the
theorems below feed to the scanner is ASCII, where this is exact. -/
def rustIsAlphanumeric (c : Char) : Bool :=
  ('a' ≤ c && c ≤ 'z') || ('A' ≤ c && c ≤ 'Z') || ('0' ≤ c && c ≤ '9')

/-- ASCII fragment of Rust `char::is_alphabetic` (see
`rustIsAlphanumeric` for the scope note). -/
def rustIsAlphabetic (c : Char) : Bool :=
  ('a' ≤ c && c ≤ 'z') || ('A' ≤ c && c ≤ 'Z')

/-!
### The scanner (`src/include_deps.rs`)

The `CharReader` state is the pair `(cur, rest)`: `cur` is the current
character (one character of look-ahead), `rest` the unread tail.  Rust's
`next_chr!` macro advances `cur` or, at end of input, returns early from
the enclosing function leaving `cur` unchanged; each call site below
matches on `rest` accordingly.  All helper loops consume at least one
character per iteration, so they are structurally recursive on `rest`;
only the top-level loop of `get_included_files` can fail to make progress
(see claim C10), so it alone takes fuel.
-/

/-- Loop body of `CharReader::read_to_while` (also serving
`read_while` with an empty accumulator). -/
def readToWhileGo (f : Char → Bool) (acc : String) (cur : Char) :
    List Char → String × Char × List Char
  | [] => if f cur then (acc.push cur, cur, []) else (acc, cur, [])
  | c :: cs =>
    if f cur then readToWhileGo f (acc.push cur) c cs else (acc, cur, c :: cs)

/-- `CharReader::read_while`. -/
def readWhile (f : Char → Bool) (cur : Char) (rest : List Char) :
    String × Char × List Char :=
  readToWhileGo f "" cur rest

/-- `CharReader::skip_while`. -/
def skipWhile (f : Char → Bool) (cur : Char) :
    List Char → Char × List Char
  | [] => (cur, [])
  | c :: cs => if f cur then skipWhile f c cs else (cur, c :: cs)

/-- `CharReader::esc_read_while`.  Faithful to the source, including the
`continue` after pushing an escaped character, which re-examines (and so
pushes a second time) the same character. -/
def escReadWhileGo (f : Char → Bool) (acc : String) (cur : Char) :
    List Char → String × Char × List Char
  | [] =>
    if cur == '\\' then (acc, cur, [])
    else if !f cur then (acc, cur, [])
    else (acc.push cur, cur, [])
  | c :: cs =>
    if cur == '\\' then
      if c != '\n' then
        if !f c then (acc, c, cs)
        else escReadWhileGo f (acc.push c) c cs
      else
        match cs with
        | [] => (acc, c, [])
        | c2 :: cs2 => escReadWhileGo f acc c2 cs2
    else if !f cur then (acc, cur, c :: cs)
    else escReadWhileGo f (acc.push cur) c cs

/-- `CharReader::esc_read_while` entry point. -/
def escReadWhile (f : Char → Bool) (cur : Char) (rest : List Char) :
    String × Char × List Char :=
  escReadWhileGo f "" cur rest

/-- `CharReader::esc_skip_while`. -/
def escSkipWhile (f : Char → Bool) (cur : Char) :
    List Char → Char × List Char
  | [] => (cur, [])
  | c :: cs =>
    if cur == '\\' then
      if c != '\n' then
        if !f c then (c, cs)
        else escSkipWhile f c cs
      else
        match cs with
        | [] => (c, [])
        | c2 :: cs2 => escSkipWhile f c2 cs2
    else if !f cur then (cur, c :: cs)
    else escSkipWhile f c cs

/-- Loop of `read_char`: consume until an unescaped `'`.  The closing
quote itself is left as the current character, as in the source. -/
def readCharGo (cur : Char) : List Char → Char × List Char
  | [] => (cur, [])
  | c :: cs =>
    if cur == '\'' then (cur, c :: cs)
    else if cur == '\\' then
      match cs with
      | [] => (c, [])
      | c2 :: cs2 => readCharGo c2 cs2
    else readCharGo c cs

/-- `read_char`: skip the opening quote, then scan. -/
def readChar (cur : Char) : List Char → Char × List Char
  | [] => (cur, [])
  | c :: cs => readCharGo c cs

/-- Loop of `read_string`: same policy as `read_char` with `"` as the
terminator; the closing quote is not consumed. -/
def readStringGo (cur : Char) : List Char → Char × List Char
  | [] => (cur, [])
  | c :: cs =>
    if cur == '"' then (cur, c :: cs)
    else if cur == '\\' then
      match cs with
      | [] => (c, [])
      | c2 :: cs2 => readStringGo c2 cs2
    else readStringGo c cs

/-- `read_string`: skip the opening quote, then scan. -/
def readString (cur : Char) : List Char → Char × List Char
  | [] => (cur, [])
  | c :: cs => readStringGo c cs

/-- `read_multiline_comment`: consume until `*/`. -/
def readMultilineComment (cur : Char) : List Char → Char × List Char
  | [] => (cur, [])
  | c :: cs =>
    if cur != '*' then readMultilineComment c cs
    else if c == '/' then
      match cs with
      | [] => (c, [])
      | d :: ds => (d, ds)
    else readMultilineComment c cs

/-- `read_line_comment`: escape-aware skip to the end of the logical
line. -/
def readLineComment (cur : Char) (rest : List Char) : Char × List Char :=
  escSkipWhile (fun c => c != '\n') cur rest

/-- `read_macro` from `src/include_deps.rs` (renamed: the source name is
unavailable here): recognise the identifier after `#` and emit
`User`/`System` for `include`, consuming to end of line otherwise. -/
def readHashDirective (cur : Char) (rest : List Char) :
    Option IncFile × Char × List Char :=
  match rest with
  | [] => (none, cur, [])
  | c :: cs =>
    let (c1, r1) := escSkipWhile rustIsWhitespace c cs
    let (mac, c2, r2) := escReadWhile rustIsAlphanumeric c1 r1
    if mac != "include" then
      let (c3, r3) := escSkipWhile (fun x => x != '\n') c2 r2
      (none, c3, r3)
    else
      let (c4, r4) := escSkipWhile rustIsWhitespace c2 r2
      if c4 == '<' then
        match r4 with
        | [] => (none, c4, [])
        | d :: ds =>
          let (res, c5, r5) := escReadWhile (fun x => x != '>') d ds
          match r5 with
          | [] => (none, c5, [])
          | e :: es => (some (IncFile.system res), e, es)
      else if c4 == '"' then
        match r4 with
        | [] => (none, c4, [])
        | d :: ds =>
          let (res, c5, r5) := escReadWhile (fun x => x != '"') d ds
          match r5 with
          | [] => (none, c5, [])
          | e :: es => (some (IncFile.user res), e, es)
      else
        let (c5, r5) := escSkipWhile (fun x => x != '\n') c4 r4
        (none, c5, r5)

/-- `read_export_module_decl`: reads a dot-separated module name and,
after a `:`, a partition.  Faithful to the source: the reader is never
advanced past the `:` itself, so the partition characters are never
consumed (see claim C7). -/
def readExportModuleDecl (cur : Char) (rest : List Char) :
    (Option IncFile × Bool) × Char × List Char :=
  let (c1, r1) := skipWhile rustIsWhitespace cur rest
  let (m, c2, r2) :=
    readWhile (fun c => rustIsAlphanumeric c || c == '.') c1 r1
  let (c3, r3) := skipWhile rustIsWhitespace c2 r2
  if c3 == ';' then
    match r3 with
    | [] => ((some (IncFile.expModule m), true), c3, [])
    | d :: ds => ((some (IncFile.expModule m), true), d, ds)
  else if c3 != ':' then
    ((some (IncFile.expModule m), true), c3, r3)
  else
    let m1 := m.push ':'
    let (c4, r4) := skipWhile rustIsWhitespace c3 r3
    let (m2, c5, r5) :=
      readToWhileGo (fun c => rustIsAlphanumeric c || c == '.') m1 c4 r4
    if c5 == ';' then
      match r5 with
      | [] => ((some (IncFile.expModule m2), true), c5, [])
      | d :: ds => ((some (IncFile.expModule m2), true), d, ds)
    else
      ((some (IncFile.expModule m2), true), c5, r5)

/-- `read_import_decl`.  Faithful to the source: in the `<` and `"` arms
`read_while` starts at the delimiter itself without skipping it, so the
`<` ends up inside the payload and a quoted payload is empty (see claim
C6). -/
def readImportDecl (cur : Char) (rest : List Char) :
    (Option IncFile × Bool) × Char × List Char :=
  let (c1, r1) := skipWhile rustIsWhitespace cur rest
  if c1 == '<' then
    let (f, c2, r2) := readWhile (fun c => c != '>') c1 r1
    ((some (IncFile.systemModule f), true), c2, r2)
  else if c1 == '"' then
    let (f, c2, r2) := readWhile (fun c => c != '"') c1 r1
    ((some (IncFile.userModule f), true), c2, r2)
  else
    let (res, c2, r2) := readExportModuleDecl c1 r1
    match res with
    | (some (IncFile.expModule m), b) => ((some (IncFile.impModule m), b), c2, r2)
    | other => (other, c2, r2)

/-- `read_module_decl`: `module;` emits nothing; otherwise parse as an
export-module declaration demoted to `ImpModule`. -/
def readModuleDecl (cur : Char) (rest : List Char) :
    (Option IncFile × Bool) × Char × List Char :=
  let (c1, r1) := skipWhile rustIsWhitespace cur rest
  if c1 == ';' then
    match r1 with
    | [] => ((none, true), c1, [])
    | d :: ds => ((none, true), d, ds)
  else
    let (res, c2, r2) := readExportModuleDecl c1 r1
    match res with
    | (some (IncFile.expModule m), b) => ((some (IncFile.impModule m), b), c2, r2)
    | other => (other, c2, r2)

/-- `read_export_decl`: dispatch on the keyword after `export`. -/
def readExportDecl (cur : Char) (rest : List Char) :
    (Option IncFile × Bool) × Char × List Char :=
  let (c1, r1) := skipWhile rustIsWhitespace cur rest
  let (kw, c2, r2) := readWhile rustIsAlphabetic c1 r1
  if kw == "module" then readExportModuleDecl c2 r2
  else if kw == "import" then
    let (res, c3, r3) := readImportDecl c2 r2
    let lifted :=
      match res with
      | (some (IncFile.impModule m), b) => (some (IncFile.expImpModule m), b)
      | (some (IncFile.userModule m), b) => (some (IncFile.expUserModule m), b)
      | (some (IncFile.systemModule m), b) => (some (IncFile.expSystemModule m), b)
      | other => other
    (lifted, c3, r3)
  else ((none, false), c2, r2)

/-- `read_module`: dispatch on the identifier at the top of a line while
in the module section. -/
def readModule (cur : Char) (rest : List Char) :
    (Option IncFile × Bool) × Char × List Char :=
  let (kw, c1, r1) := readWhile rustIsAlphabetic cur rest
  if kw == "module" then readModuleDecl c1 r1
  else if kw == "export" then readExportDecl c1 r1
  else if kw == "import" then readImportDecl c1 r1
  else ((none, false), c1, r1)

/-- The main loop of `get_included_files`, with fuel: one unit per loop
iteration.  `none` models an execution that has not finished within the
fuel; the Rust loop has iterations that consume no input (see claim
C10), so no fuel bound derived from the input suffices in general. -/
def scanLoop : Nat → Bool → Bool → Char → List Char → List IncFile →
    Option (List IncFile)
  | 0, _, _, _, _, _ => none
  | fuel + 1, ms, pn, cur, rest, res =>
    if cur == '\n' then
      match rest with
      | [] => some res
      | c :: cs => scanLoop fuel ms true c cs res
    else if rustIsWhitespace cur then
      match rest with
      | [] => some res
      | c :: cs => scanLoop fuel ms pn c cs res
    else if cur == '#' && pn then
      match readHashDirective cur rest with
      | (some f, c1, r1) => scanLoop fuel ms true c1 r1 (res ++ [f])
      | (none, c1, r1) => scanLoop fuel ms pn c1 r1 res
    else if cur == '\'' then
      let (c1, r1) := readChar cur rest
      scanLoop fuel ms false c1 r1 res
    else if cur == '"' then
      let (c1, r1) := readString cur rest
      scanLoop fuel ms false c1 r1 res
    else if cur == '/' then
      match rest with
      | [] => some res
      | c :: cs =>
        if c == '*' then
          let (c1, r1) := readMultilineComment c cs
          scanLoop fuel ms pn c1 r1 res
        else if c == '/' then
          let (c1, r1) := readLineComment c cs
          scanLoop fuel ms pn c1 r1 res
        else
          match cs with
          | [] => some res
          | d :: ds => scanLoop fuel ms false d ds res
    else
      if ms then
        match readModule cur rest with
        | ((f, true), c1, r1) =>
          scanLoop fuel true false c1 r1 (res ++ f.toList)
        | ((_, false), c1, r1) => scanLoop fuel false false c1 r1 res
      else
        match rest with
        | [] => some res
        | c :: cs => scanLoop fuel ms false c cs res

/-- `get_included_files` on an in-memory character stream (the file has
been opened and decoded successfully), with fuel for the main loop. -/
def getIncludedFilesFuel (fuel : Nat) (content : List Char) :
    Option (List IncFile) :=
  match content with
  | [] => some []
  | c :: cs => scanLoop fuel true true c cs []

/-!
### `parse_dependencies` (`src/dependency.rs`)

`Path::join` and `Path::extension` are modelled for the relative,
well-formed path strings this development uses (the sole purpose is to
carry payloads through `DepFile::header`).
-/

/-- `Path::join` for a relative right operand. -/
def pathJoin (parent m : String) : String :=
  parent ++ "/" ++ m

/-- `Path::extension` for a path in the shape used here: the part of the
final component after its last dot; none when that component has no dot
or only a leading one (a dotfile).  Written on character data so that
it evaluates inside the kernel. -/
def pathExtension (p : String) : Option String :=
  let base := (p.data.reverse.takeWhile (fun c => c != '/')).reverse
  let revExt := base.reverse.takeWhile (fun c => c != '.')
  if revExt.length == base.length then none
  else if revExt.length + 1 == base.length then none
  else some ⟨revExt.reverse⟩

/-- `FileType::from_ext` from `src/file_type.rs`. -/
def fileTypeFromExt (ext : String) : Option FileType :=
  if ext == "c" then some ⟨Language.c, FileState.source⟩
  else if ext == "C" || ext == "cc" || ext == "cpp" || ext == "CPP" ||
      ext == "c++" || ext == "cp" || ext == "cxx" then
    some ⟨Language.cpp, FileState.source⟩
  else if ext == "h" then some ⟨Language.c, FileState.header⟩
  else if ext == "H" || ext == "hh" || ext == "hpp" || ext == "hxx" ||
      ext == "h++" then
    some ⟨Language.cpp, FileState.header⟩
  else none

/-- `From<PathBuf> for DepFile`. -/
def depFileFromPath (p : String) : DepFile :=
  { path := p, typ := (pathExtension p).bind fileTypeFromExt }

/-- `DepFile::header`. -/
def DepFile.header (p : String) : DepFile :=
  let res := depFileFromPath p
  match res.typ with
  | some t => { res with typ := some ⟨t.lang, FileState.header⟩ }
  | none => { res with typ := some ⟨Language.cpp, FileState.header⟩ }

/-- `str::starts_with(':')` on the module-name string (written on the
character data so that it evaluates inside the kernel). -/
def startsWithColon (m : String) : Bool :=
  match m.data with
  | c :: _ => c == ':'
  | [] => false

/-- One arm of the `for inc in get_included_files(..)` loop body of
`parse_dependencies`, applied to the accumulating `Dependency`. -/
def parseIncStep (parent : String) (dep : Dependency) (inc : IncFile) :
    Dependency :=
  match inc with
  | IncFile.user m =>
    { dep with transitive := insertDF dep.transitive (DepFile.header (pathJoin parent m)) }
  | IncFile.system _ => dep
  | IncFile.expModule m =>
    { dep with modules := { dep.modules with provides := some m } }
  | IncFile.impModule m =>
    let m1 :=
      if startsWithColon m then
        match dep.modules.provides with
        | some base => base ++ m
        | none => m
      else m
    { dep with modules := { dep.modules with imports := dep.modules.imports ++ [m1] } }
  | IncFile.expImpModule m =>
    let m1 :=
      if startsWithColon m then
        match dep.modules.provides with
        | some base => base ++ m
        | none => m
      else m
    { dep with modules := { dep.modules with exports := dep.modules.exports ++ [m1] } }
  | IncFile.userModule m =>
    let f := DepFile.header (pathJoin parent m)
    { dep with
      modules := { dep.modules with user := dep.modules.user ++ [f] },
      nonTransitive := insertDF dep.nonTransitive f }
  | IncFile.systemModule m =>
    { dep with modules := { dep.modules with system := dep.modules.system ++ [DepFile.header m] } }
  | IncFile.expUserModule m =>
    let f := DepFile.header (pathJoin parent m)
    { dep with
      modules := { dep.modules with userExports := dep.modules.userExports ++ [f] },
      transitive := insertDF dep.transitive f }
  | IncFile.expSystemModule m =>
    { dep with modules := { dep.modules with systemExports := dep.modules.systemExports ++ [DepFile.header m] } }

/-- The whole loop of `parse_dependencies` over a directive list already
produced by the scanner (`parent` is `dep.file.parent()`). -/
def parseIncsFold (parent : String) (incs : List IncFile) (dep : Dependency) :
    Dependency :=
  incs.foldl (parseIncStep parent) dep

/-!
### `Dependency::is_up_to_date` (`src/dependency.rs`)

The filesystem is a snapshot: a map from path to the result of
`fs::metadata`.  Metadata carries the result of `modified()`:
a timestamp (as a natural number) or an `io::ErrorKind`.
`Path::exists` is `fs::metadata(..).is_ok()` on the same snapshot.
-/

/-- The `io::ErrorKind` values this development distinguishes. -/
inductive IOEKind where
  | notFound
  | unsupported
  | permissionDenied
  | other
deriving DecidableEq, Repr

/-- Equality of `Except` values is decidable componentwise. -/
instance instDecEqExcept [DecidableEq ε] [DecidableEq α] :
    DecidableEq (Except ε α) := fun a b =>
  match a, b with
  | .ok x, .ok y =>
    if h : x = y then .isTrue (by rw [h]) else .isFalse (by simp [h])
  | .error x, .error y =>
    if h : x = y then .isTrue (by rw [h]) else .isFalse (by simp [h])
  | .ok _, .error _ => .isFalse (by simp)
  | .error _, .ok _ => .isFalse (by simp)

/-- Result of `Metadata::modified()`. -/
structure FMeta where
  modified : Except IOEKind Nat
deriving DecidableEq, Repr

/-- A filesystem snapshot: `fs::metadata` per path. -/
def FSm : Type := String → Except IOEKind FMeta

/-- `Path::exists`. -/
def fsExists (fs : FSm) (p : String) : Bool :=
  match fs p with
  | .ok _ => true
  | .error _ => false

/-- The errors of `src/err.rs` that this development mentions
(`Error::Io` carries just the kind). -/
inductive RError where
  | dependencyCycle
  | duplicateDependency
  | nothingToBuild (p : String)
  | invalidFileType (f : DepFile)
  | invalidCompilerValue (option value : String)
  | generic (s : String)
  | doesNotHappen (s : String)
  | processFailed (code : Option Int)
  | io (k : IOEKind)
deriving DecidableEq, Repr

/-- `metadata()?.modified()` composed: the timestamp of a path, or the
first error kind hit. -/
def modOf (fs : FSm) (p : String) : Except IOEKind Nat :=
  match fs p with
  | .error e => .error e
  | .ok m => m.modified

/-- The `for dep in self.direct.iter().chain(self.transitive.iter())`
loop of `is_up_to_date`: `lastMod` is the file's own timestamp. -/
def depsUpToDate (fs : FSm) (lastMod : Nat) : List DepFile → Except RError Bool
  | [] => .ok true
  | dep :: rest =>
    match fs dep.path with
    | .error e => .error (.io e)
    | .ok m =>
      match m.modified with
      | .error e => .error (.io e)
      | .ok depMod =>
        if lastMod < depMod then .ok false
        else depsUpToDate fs lastMod rest

/-- `Dependency::is_up_to_date`.  The `Unsupported` special case applies
only to the file's own `modified()`; dependency errors propagate. -/
def isUpToDate (fs : FSm) (d : Dependency) : Except RError Bool :=
  if !fsExists fs d.file.path then .ok false
  else
    match fs d.file.path with
    | .error e => .error (.io e)
    | .ok m =>
      match m.modified with
      | .ok lastMod => depsUpToDate fs lastMod (d.direct ++ d.transitive)
      | .error IOEKind.unsupported => .ok false
      | .error e => .error (.io e)

/-!
### `DepCache::resolve_dependency` (`src/dependency.rs`)

`parse_dependencies` opens and scans the target file; the resolver is
parameterised by its outcome `parse : String → ParseOut` (what the
scan of each path fills into an empty `Dependency`), which keeps the
loop's own logic — the subject of claims C1 and C9 — exact while leaving
the filesystem abstract.  `file_cache` and `module_map` are association
lists; `HashMap::insert` replaces an existing binding.  The two `Vec`
stacks `to_exam` and `dep_stack` are lists with the head as top; pushing
a slice appends its reverse so that pop order matches the Rust order.
-/

/-- What `parse_dependencies` writes into a fresh `Dependency` for one
path. -/
structure ParseOut where
  transitive : List DepFile := []
  nonTransitive : List DepFile := []
  modules : ModulesRec := {}
deriving DecidableEq, Repr

/-- Build the `Dependency` that `Dependency::empty` + `parse_dependencies`
produce for `f`. -/
def parseDep (parse : String → ParseOut) (f : DepFile) : Dependency :=
  let p := parse f.path
  { file := f, direct := [], transitive := p.transitive,
    nonTransitive := p.nonTransitive, modules := p.modules }

/-- `DepInfo` from `src/dependency.rs`. -/
structure DepInfo where
  file : DepFile
  pop : Bool
  transitive : Bool
deriving DecidableEq, Repr

/-- `Vec::push` on a head-as-top stack. -/
def vpush (s : List α) (x : α) : List α := x :: s

/-- `Vec::extend` on a head-as-top stack: elements are pushed in order,
so the last element of the slice ends on top. -/
def vextend (s : List α) (xs : List α) : List α := xs.reverse ++ s

/-- `file_cache` lookup: `HashMap<DepFile, _>` hashes by path. -/
def lookupCache (cache : List (DepFile × Dependency)) (f : DepFile) :
    Option Dependency :=
  match cache.find? (fun e => e.1.path == f.path) with
  | some e => some e.2
  | none => none

/-- `HashMap::insert` for `file_cache`: replace the binding if the key
(path) is present, append otherwise. -/
def insertCache (cache : List (DepFile × Dependency)) (f : DepFile)
    (d : Dependency) : List (DepFile × Dependency) :=
  match cache with
  | [] => [(f, d)]
  | e :: rest =>
    if e.1.path == f.path then (e.1, d) :: rest
    else e :: insertCache rest f d

/-- `HashMap::insert` for `module_map`. -/
def insertModule (mm : List (String × DepFile)) (k : String) (v : DepFile) :
    List (String × DepFile) :=
  match mm with
  | [] => [(k, v)]
  | e :: rest =>
    if e.1 == k then (e.1, v) :: rest
    else e :: insertModule rest k v

/-- The state of the `while let Some(..) = to_exam.pop()` loop. -/
structure LoopSt where
  toExam : List DepInfo
  depStack : List Dependency
  fileCache : List (DepFile × Dependency)
  moduleMap : List (String × DepFile)
deriving DecidableEq, Repr

/-- The `DepInfo` records pushed for the children of `dep`: the first
child carries the pop marker; remaining transitive children and then the
non-transitive children follow without it. -/
def pushChildren (toExam : List DepInfo) (dep : Dependency) :
    Option (List DepInfo) :=
  match dep.transitive with
  | d :: ts =>
    let s1 := vpush toExam ⟨d, true, true⟩
    let s2 := vextend s1 (ts.map (fun x => (⟨x, false, true⟩ : DepInfo)))
    let s3 := vextend s2
      (dep.nonTransitive.map (fun x => (⟨x, false, false⟩ : DepInfo)))
    some s3
  | [] =>
    match dep.nonTransitive with
    | d :: nts =>
      let s1 := vpush toExam ⟨d, true, false⟩
      let s2 := vextend s1 (nts.map (fun x => (⟨x, false, false⟩ : DepInfo)))
      some s2
    | [] => none

/-- One iteration of the resolver loop (the body of the `while let`),
assuming `to_exam` was non-empty; returns the state unchanged otherwise. -/
def resolveStep (parse : String → ParseOut) (st : LoopSt) : LoopSt :=
  match st.toExam with
  | [] => st
  | info :: restExam =>
    let stack1 :=
      match lookupCache st.fileCache info.file with
      | some cached =>
        match st.depStack with
        | top :: more =>
          { top with transitive := extendDF top.transitive cached.transitive } :: more
        | [] => st.depStack
      | none => st.depStack
    let dep := parseDep parse info.file
    let (exam2, stack2, cache2) :=
      match pushChildren restExam dep with
      | some exam' => (exam', vpush stack1 dep, st.fileCache)
      | none => (restExam, stack1, insertCache st.fileCache dep.file dep)
    if info.pop then
      match stack2 with
      | popped :: stackRest =>
        let stack3 :=
          match stackRest with
          | top :: more =>
            if info.transitive then
              { top with transitive := extendDF top.transitive popped.transitive } :: more
            else
              { top with nonTransitive := extendDF top.nonTransitive popped.transitive } :: more
          | [] => stackRest
        let mm :=
          match popped.modules.provides with
          | some m => insertModule st.moduleMap m popped.file
          | none => st.moduleMap
        { toExam := exam2, depStack := stack3,
          fileCache := insertCache cache2 popped.file popped, moduleMap := mm }
      | [] =>
        { toExam := exam2, depStack := stack2, fileCache := cache2,
          moduleMap := st.moduleMap }
    else
      { toExam := exam2, depStack := stack2, fileCache := cache2,
        moduleMap := st.moduleMap }

/-- The resolver loop with fuel: `some` exactly when `to_exam` empties
within the fuel. -/
def resolveLoop (parse : String → ParseOut) : Nat → LoopSt → Option LoopSt
  | 0, st => if st.toExam.isEmpty then some st else none
  | fuel + 1, st =>
    if st.toExam.isEmpty then some st
    else resolveLoop parse fuel (resolveStep parse st)

/-- The caches of a `DepCache` (`module_cache` is never read or written
by the resolved paths and is omitted). -/
structure RSt where
  fileCache : List (DepFile × Dependency) := []
  moduleMap : List (String × DepFile) := []
deriving DecidableEq, Repr

/-- The post-loop part of `resolve_dependency`: the stack-length check,
the root's `module_map` record and its `file_cache` insertion (`file1` is
the root key, type promotion already applied). -/
def resolvePost (file1 : DepFile) (stL : LoopSt) : Except RError RSt :=
  match stL.depStack with
  | _ :: _ :: _ =>
    .error (.doesNotHappen "Dependency stack has too many items.")
  | [res] =>
    let mm :=
      match res.modules.provides with
      | some m => insertModule stL.moduleMap m res.file
      | none => stL.moduleMap
    .ok { fileCache := insertCache stL.fileCache file1 res, moduleMap := mm }
  | [] => .error (.doesNotHappen "Dependency stack has no items")

/-- The `to_exam` stack as first collected for the root's edges (the
chained transitive and non-transitive iterators, none carrying a pop
marker). -/
def initExam (dep1 : Dependency) : List DepInfo :=
  vextend (vextend [] (dep1.transitive.map (fun x => (⟨x, false, true⟩ : DepInfo))))
    (dep1.nonTransitive.map (fun x => (⟨x, false, false⟩ : DepInfo)))

/-- `DepCache::resolve_dependency`: the cached short-circuit, the
pre-loop parse and Source → SourceModule promotion of the root, the
loop, and the post-loop insertion.  `none` models a loop that never
finishes. -/
def resolveDependency (parse : String → ParseOut) (fuel : Nat) (st : RSt)
    (file0 : DepFile) : Option (Except RError RSt) :=
  if (lookupCache st.fileCache file0).isSome then some (.ok st)
  else
    let dep0 := parseDep parse file0
    let promoted : Option FileType :=
      if dep0.modules.provides.isSome then
        some ⟨Language.cpp, FileState.sourceModule⟩
      else file0.typ
    let file1 : DepFile := { file0 with typ := promoted }
    let dep1 : Dependency := { dep0 with file := { dep0.file with typ := promoted } }
    let loopSt : LoopSt :=
      { toExam := initExam dep1, depStack := [dep1], fileCache := st.fileCache,
        moduleMap := st.moduleMap }
    (resolveLoop parse fuel loopSt).map (resolvePost file1)

/-!
### The build scheduler (`src/builder.rs`)

A single orchestrator thread owns all state; parallelism is OS child
processes only.  Children are identified by the numbers `0, 1, …` in
spawn order.  The collaborators — the compiler capability
(`Compiler::build`), `DepCache::fill_dependency`,
`Dependency::is_up_to_date`, directory creation + `Command::spawn`,
`Child::try_wait` and `Child::wait` — are an environment of oracle
functions; each receives a logical clock (`tick`, bumped at every
interaction) so its answers may vary over time.  The claims are proved
for every environment, hence for the real collaborators.
`Error::DependencyCycle` is constructed only inside `select_command`
(verified over the sources), so the oracles' error type omits it.

Ghost fields record process accounting: `spawned`, `reaped` (a
successful `wait`, or a `try_wait` that returned a status — both reap),
`wfallDropped` (a child popped by `wait_for_all` whose `wait` failed:
the `?` drops it without a kill), and `killedAttempted` (`kill` invoked
from `build`'s drain after a failed `wait`).
-/

/-- Exit status of a child process. -/
structure ExitSt where
  success : Bool
  code : Option Int
deriving DecidableEq, Repr

/-- The errors the scheduler's collaborators can produce (every
`src/err.rs` variant they construct; `DependencyCycle` is not among
them). -/
inductive OErr where
  | duplicateDependency
  | nothingToBuild (p : String)
  | invalidFileType (f : DepFile)
  | invalidCompilerValue (option value : String)
  | generic (s : String)
  | doesNotHappen (s : String)
  | io (k : IOEKind)
deriving DecidableEq, Repr

/-- Injection of collaborator errors into the full error type. -/
def OErr.toE : OErr → RError
  | .duplicateDependency => .duplicateDependency
  | .nothingToBuild p => .nothingToBuild p
  | .invalidFileType f => .invalidFileType f
  | .invalidCompilerValue o v => .invalidCompilerValue o v
  | .generic s => .generic s
  | .doesNotHappen s => .doesNotHappen s
  | .io k => .io k

/-- `QCommand` from `src/builder.rs`; the spawnable `Command` payload is
identified by a number, since the scheduler never inspects it. -/
structure QCommand where
  command : Nat
  requires : List DepFile
  provides : List DepFile
deriving DecidableEq, Repr

/-- The scheduler state: the `Builder` fields (`print_command` has no
observable effect here; `cache` is the abstract state index
`cacheTick`), the local `child_pool` of `build` as `pool`, plus the
clock, the child-id counter and the ghost accounting logs. -/
structure BSt where
  threadCount : Nat
  built : List DepFile := []
  depQueue : List Dependency := []
  commandQueue : List QCommand := []
  selfPool : List (Nat × QCommand) := []
  cacheTick : Nat := 0
  pool : List (Nat × QCommand) := []
  tick : Nat := 0
  nextChild : Nat := 0
  spawned : List Nat := []
  reaped : List Nat := []
  wfallDropped : List Nat := []
  killedAttempted : List Nat := []
deriving DecidableEq, Repr

/-- The oracle environment (see the section comment). -/
structure SchedEnv where
  compile : Nat → Dependency → Except OErr (Nat × List Dependency)
  fill : Nat → Nat → Dependency → Except OErr (Nat × Dependency)
  upToDateQ : Nat → Dependency → Except OErr Bool
  spawnOk : Nat → Option OErr
  tryWaitQ : Nat → Nat → Except OErr (Option ExitSt)
  waitQ : Nat → Nat → Except OErr ExitSt

/-- Result of the per-dependency loops of `fetch_command`: the kept
(mutated) dependencies, the clock and the cache state after the loop. -/
structure FDOut where
  deps : List Dependency
  tickOut : Nat
  cstOut : Nat
deriving DecidableEq, Repr

/-- The `while i < deps.len()` loop of `fetch_command`: fill each
sub-dependency, drop it when it is then up to date; kept entries carry
the fill's mutation. -/
def filterDeps (env : SchedEnv) : Nat → Nat → List Dependency →
    Except OErr FDOut
  | tick, cst, [] => .ok ⟨[], tick, cst⟩
  | tick, cst, d :: rest =>
    match env.fill tick cst d with
    | .error e => .error e
    | .ok (cst1, d1) =>
      match env.upToDateQ (tick + 1) d1 with
      | .error e => .error e
      | .ok true => filterDeps env (tick + 2) cst1 rest
      | .ok false =>
        match filterDeps env (tick + 2) cst1 rest with
        | .error e => .error e
        | .ok out => .ok ⟨d1 :: out.deps, out.tickOut, out.cstOut⟩

/-- The second `for d in deps.iter_mut()` loop of `fetch_command`: fill
every kept dependency again; the mutations flow into `dep_queue`. -/
def fillAll (env : SchedEnv) : Nat → Nat → List Dependency →
    Except OErr FDOut
  | tick, cst, [] => .ok ⟨[], tick, cst⟩
  | tick, cst, d :: rest =>
    match env.fill tick cst d with
    | .error e => .error e
    | .ok (cst1, d1) =>
      match fillAll env (tick + 1) cst1 rest with
      | .error e => .error e
      | .ok out => .ok ⟨d1 :: out.deps, out.tickOut, out.cstOut⟩

/-- `Builder::fetch_command`.  `dep_queue` is a stack with the head as
top; `extend(deps.into_iter().rev())` makes the first sub-dependency the
next pop, hence the plain prepend. -/
def fetchCommand (env : SchedEnv) (st : BSt) :
    Except RError (Option QCommand) × BSt :=
  match st.depQueue with
  | [] => (.ok none, st)
  | file :: dq =>
    let resolved := file.file
    match env.compile st.tick file with
    | .error e => (.error e.toE, { st with depQueue := dq, tick := st.tick + 1 })
    | .ok (cmdId, deps0) =>
      let deps1 := deps0.filter (fun d =>
        !(containsPath st.built d.file) &&
        !(st.selfPool.any (fun p => containsPath p.2.provides d.file)))
      match filterDeps env (st.tick + 1) st.cacheTick deps1 with
      | .error e =>
        (.error e.toE, { st with depQueue := dq, tick := st.tick + 1 })
      | .ok fd =>
        let res : QCommand :=
          { command := cmdId, requires := fd.deps.map (fun d => d.file),
            provides := [resolved] }
        match fillAll env fd.tickOut fd.cstOut fd.deps with
        | .error e =>
          (.error e.toE,
           { st with
             depQueue := dq, tick := fd.tickOut + 1, cacheTick := fd.cstOut })
        | .ok fa =>
          (.ok (some res),
           { st with
             depQueue := fa.deps ++ dq, tick := fa.tickOut,
             cacheTick := fa.cstOut })

/-- One `command_queue` entry after dropping already-built inputs
(`c.requires.retain(..)`). -/
def retainReq (built : List DepFile) (c : QCommand) : QCommand :=
  { c with requires := c.requires.filter (fun r => !(containsPath built r)) }

/-- The reverse walk over `command_queue`: entries are visited from the
back, each visited entry keeps its retained `requires`, and the walk
stops at (and removes) the first entry whose `requires` empties;
entries in front of it are untouched. -/
def selectScan (built : List DepFile) : List QCommand →
    List QCommand × Option QCommand
  | [] => ([], none)
  | c :: rest =>
    match selectScan built rest with
    | (rest1, some x) => (c :: rest1, some x)
    | (rest1, none) =>
      let c1 := retainReq built c
      if c1.requires.isEmpty then (rest1, some c1)
      else (c1 :: rest1, none)

/-- The `while let Some(c) = self.fetch_command()?` loop of
`select_command`, with fuel (each fetched dependency can enqueue more). -/
def selectFetchLoop (env : SchedEnv) : Nat → BSt →
    Option (Except RError (Option QCommand) × BSt)
  | 0, _ => none
  | fuel + 1, st =>
    match fetchCommand env st with
    | (r, st1) =>
      match r with
      | .error e => some (.error e, st1)
      | .ok none =>
        some
          (if st1.commandQueue.isEmpty then .ok none
           else .error .dependencyCycle, st1)
      | .ok (some c) =>
        if c.requires.isEmpty then some (.ok (some c), st1)
        else
          selectFetchLoop env fuel
            { st1 with commandQueue := st1.commandQueue ++ [c] }

/-- `Builder::select_command`. -/
def selectCommand (env : SchedEnv) (fuel : Nat) (st : BSt) :
    Option (Except RError (Option QCommand) × BSt) :=
  match selectScan st.built st.commandQueue with
  | (cq1, some c) => some (.ok (some c), { st with commandQueue := cq1 })
  | (cq1, none) => selectFetchLoop env fuel { st with commandQueue := cq1 }

/-- `QCommand::run`: directory creation and `Command::spawn`, folded
into the environment's `spawnOk`; on success the fresh child id is
logged as spawned.  Printing has no observable effect. -/
def cmdRunM (env : SchedEnv) (st : BSt) : Except OErr Nat × BSt :=
  match env.spawnOk st.tick with
  | some e => (.error e, { st with tick := st.tick + 1 })
  | none =>
    (.ok st.nextChild,
     { st with
       tick := st.tick + 1, nextChild := st.nextChild + 1,
       spawned := st.spawned ++ [st.nextChild] })

/-- The first pool entry that `try_wait` reports as exited:
`pool = bef ++ [entry] ++ aft`, with the exit status. -/
structure PollHit where
  bef : List (Nat × QCommand)
  entry : Nat × QCommand
  status : ExitSt
  aft : List (Nat × QCommand)
deriving DecidableEq, Repr

/-- Outcome of one polling pass plus the clock after it. -/
structure PollOut where
  res : Except OErr (Option PollHit)
  tickOut : Nat
deriving DecidableEq, Repr

/-- One `try_wait` pass over the pool in order: `ok none` when every
child is still running, otherwise the decomposition at the first child
that reported an exit. -/
def pollScan (env : SchedEnv) (tick : Nat) :
    List (Nat × QCommand) → PollOut
  | [] => ⟨.ok none, tick⟩
  | e :: rest =>
    match env.tryWaitQ tick e.1 with
    | .error err => ⟨.error err, tick + 1⟩
    | .ok (some status) => ⟨.ok (some ⟨[], e, status, rest⟩), tick + 1⟩
    | .ok none =>
      let po := pollScan env (tick + 1) rest
      match po.res with
      | .error err => ⟨.error err, po.tickOut⟩
      | .ok none => ⟨.ok none, po.tickOut⟩
      | .ok (some hit) =>
        ⟨.ok (some ⟨e :: hit.bef, hit.entry, hit.status, hit.aft⟩),
         po.tickOut⟩

/-- The polling loop of `wait_and_run_command` when the pool is full:
the first exited child (on success) is replaced in place by the new
command's child and its `provides` are promoted into `built`; the 10 ms
sleep between passes is one fuel unit. -/
def warLoop (env : SchedEnv) (cmd : QCommand) : Nat → BSt →
    Option (Except RError Unit × BSt)
  | 0, _ => none
  | fuel + 1, st =>
    match (pollScan env st.tick st.pool).res with
    | .error e =>
      some (.error e.toE,
        { st with tick := (pollScan env st.tick st.pool).tickOut })
    | .ok none =>
      warLoop env cmd fuel
        { st with tick := (pollScan env st.tick st.pool).tickOut + 1 }
    | .ok (some hit) =>
      let st1 : BSt :=
        { st with
          tick := (pollScan env st.tick st.pool).tickOut,
          reaped := st.reaped ++ [hit.entry.1] }
      if !hit.status.success then
        some (.error (.processFailed hit.status.code), st1)
      else
        match cmdRunM env st1 with
        | (.error e, st2) => some (.error e.toE, st2)
        | (.ok child, st2) =>
          some (.ok (),
            { st2 with
              pool := hit.bef ++ [(child, cmd)] ++ hit.aft,
              built := extendDF st2.built hit.entry.2.provides })

/-- `Builder::wait_and_run_command`. -/
def waitAndRun (env : SchedEnv) (fuel : Nat) (st : BSt) (cmd : QCommand) :
    Option (Except RError Unit × BSt) :=
  if st.pool.length < st.threadCount then
    match cmdRunM env st with
    | (.error e, st1) => some (.error e.toE, st1)
    | (.ok child, st1) =>
      some (.ok (), { st1 with pool := st1.pool ++ [(child, cmd)] })
  else warLoop env cmd fuel st

/-- `Vec::swap_remove` given the decomposition around the removed index:
the last element moves into the hole. -/
def swapRemoveParts (bef aft : List (Nat × QCommand)) :
    List (Nat × QCommand) :=
  match aft.reverse with
  | [] => bef
  | x :: revRest => bef ++ [x] ++ revRest.reverse

/-- The polling loop of `wait_for_any` (the pool is known non-empty). -/
def wfaLoop (env : SchedEnv) : Nat → BSt → Option (Except RError Bool × BSt)
  | 0, _ => none
  | fuel + 1, st =>
    match (pollScan env st.tick st.pool).res with
    | .error e =>
      some (.error e.toE,
        { st with tick := (pollScan env st.tick st.pool).tickOut })
    | .ok none =>
      wfaLoop env fuel
        { st with tick := (pollScan env st.tick st.pool).tickOut + 1 }
    | .ok (some hit) =>
      let st1 : BSt :=
        { st with
          tick := (pollScan env st.tick st.pool).tickOut,
          reaped := st.reaped ++ [hit.entry.1] }
      if !hit.status.success then
        some (.error (.processFailed hit.status.code), st1)
      else
        some (.ok true,
          { st1 with
            pool := swapRemoveParts hit.bef hit.aft,
            built := extendDF st1.built hit.entry.2.provides })

/-- `Builder::wait_for_any`. -/
def waitForAny (env : SchedEnv) (fuel : Nat) (st : BSt) :
    Option (Except RError Bool × BSt) :=
  if st.pool.isEmpty then some (.ok false, st)
  else wfaLoop env fuel st

/-- The `while let Some(mut cmd) = pool.pop()` loop of `wait_for_all`,
processing the reversed pool (head = last = next popped).  A failed
`wait` drops the popped child — the `?` returns before any kill — and
is logged `wfallDropped`; a non-success status pushes the entry back
before returning `ProcessFailed`. -/
def wfAllGo (env : SchedEnv) (st : BSt) : List (Nat × QCommand) →
    Except RError Unit × BSt
  | [] => (.ok (), { st with pool := [] })
  | e :: rest =>
    match env.waitQ st.tick e.1 with
    | .error err =>
      (.error err.toE,
       { st with
         pool := rest.reverse, tick := st.tick + 1,
         wfallDropped := st.wfallDropped ++ [e.1] })
    | .ok status =>
      if !status.success then
        (.error (.processFailed status.code),
         { st with
           pool := rest.reverse ++ [e], tick := st.tick + 1,
           reaped := st.reaped ++ [e.1] })
      else
        wfAllGo env
          { st with
            pool := rest.reverse, tick := st.tick + 1,
            reaped := st.reaped ++ [e.1] } rest

/-- `Builder::wait_for_all`. -/
def waitForAll (env : SchedEnv) (st : BSt) : Except RError Unit × BSt :=
  wfAllGo env st st.pool.reverse

/-- The main loop of `build_with_pool`, one fuel unit per iteration;
inner polling loops receive the same budget. -/
def buildWithPool (env : SchedEnv) : Nat → BSt →
    Option (Except RError Unit × BSt)
  | 0, _ => none
  | fuel + 1, st =>
    match selectCommand env (fuel + 1) st with
    | none => none
    | some (r, st1) =>
      match r with
      | .ok (some cmd) =>
        match waitAndRun env (fuel + 1) st1 cmd with
        | none => none
        | some (r2, st2) =>
          match r2 with
          | .ok _ => buildWithPool env fuel st2
          | .error e => some (.error e, st2)
      | .ok none => some (waitForAll env st1)
      | .error e =>
        if e = RError.dependencyCycle then
          match waitForAny env (fuel + 1) st1 with
          | none => none
          | some (r3, st2) =>
            match r3 with
            | .ok false => some (.error .dependencyCycle, st2)
            | .ok true => buildWithPool env fuel st2
            | .error e2 => some (.error e2, st2)
        else some (.error e, st1)

/-- The `for (mut c, _) in child_pool` reaping loop of `build`: wait on
each remaining child in order (the status, even a failure, is
discarded); when the wait itself fails the child is killed best-effort. -/
def drainGo (env : SchedEnv) (st : BSt) : List (Nat × QCommand) → BSt
  | [] => { st with pool := [] }
  | e :: rest =>
    match env.waitQ st.tick e.1 with
    | .ok _ =>
      drainGo env
        { st with tick := st.tick + 1, reaped := st.reaped ++ [e.1] } rest
    | .error _ =>
      drainGo env
        { st with
          tick := st.tick + 2,
          killedAttempted := st.killedAttempted ++ [e.1] } rest

/-- `Builder::build`: run the main loop; on failure, reap the whole
remaining pool before returning the original error. -/
def build (env : SchedEnv) (fuel : Nat) (st : BSt) :
    Option (Except RError Unit × BSt) :=
  match buildWithPool env fuel st with
  | none => none
  | some (r, st1) =>
    match r with
    | .ok _ => some (.ok (), st1)
    | .error e => some (.error e, drainGo env st1 st1.pool)

/-- A freshly constructed scheduler state: empty pool and ghost logs,
as `build` starts from `Builder::from_config` + queued work. -/
def mkInit (tc : Nat) (built : List DepFile) (dq : List Dependency)
    (cq : List QCommand) : BSt :=
  { threadCount := tc, built := built, depQueue := dq, commandQueue := cq }

/-- The `thread_count` computation of `Builder::from_config`:
`available_parallelism().map_or(1, |t| t.get().checked_sub(2).unwrap_or(1))`.
`none` models an unavailable parallelism query; `checked_sub 2`
underflows (yielding the fallback 1) only when `t < 2`. -/
def rustThreadCount (avail : Option Nat) : Nat :=
  match avail with
  | none => 1
  | some t => if t < 2 then 1 else t - 2

/-!
### Concrete inputs for the claims
-/

/-- `Dependency::empty`. -/
def Dependency.empty (f : DepFile) : Dependency := { file := f }

/-- Claim C1: header `a.h` (as `DepFile::header` builds it). -/
def c1A : DepFile := DepFile.header "a.h"

/-- Claim C1: header `b.h`. -/
def c1B : DepFile := DepFile.header "b.h"

/-- Claim C1: the scan outcomes for a pair of headers that include each
other (`a.h` includes `b.h`, `b.h` includes `a.h`). -/
def c1Parse : String → ParseOut := fun p =>
  if p == "a.h" then { transitive := [c1B] }
  else if p == "b.h" then { transitive := [c1A] }
  else {}

/-- Claim C1: the resolver loop state right after the pre-loop setup for
root `a.h`. -/
def c1S0 : LoopSt :=
  { toExam := [⟨c1B, false, true⟩], depStack := [parseDep c1Parse c1A],
    fileCache := [], moduleMap := [] }

/-- Claim C1: the state three iterations in; the loop then alternates
between this state and its successor forever. -/
def c1Sa : LoopSt :=
  resolveStep c1Parse (resolveStep c1Parse (resolveStep c1Parse c1S0))

/-- Claim C9: a root source file. -/
def c9root : DepFile :=
  { path := "r.cpp", typ := some ⟨Language.cpp, FileState.source⟩ }

/-- Claim C9: the header edge the root's scan produces. -/
def c9hdr : DepFile := DepFile.header "h.hpp"

/-- Claim C9: scan outcomes — the root includes `h.hpp`; each file's
`export module` observation is a parameter. -/
def c9Parse (pr ph : Option String) : String → ParseOut := fun p =>
  if p == "r.cpp" then { transitive := [c9hdr], modules := { provides := pr } }
  else if p == "h.hpp" then { modules := { provides := ph } }
  else {}

/-- Claim C9: the cache entry for `f` after resolving the root. -/
def c9lookup (pr ph : Option String) (f : DepFile) : Option Dependency :=
  match resolveDependency (c9Parse pr ph) 4 {} c9root with
  | some (.ok st) => lookupCache st.fileCache f
  | _ => none

/-- The number of pop-marked records on the examination stack. -/
def popCount (l : List DepInfo) : Nat := (l.filter (fun i => i.pop)).length

/-- A `DepFile` some scan produced verbatim — an edge of the include
graph (`parse_dependencies` builds every one of these with
`DepFile::header`). -/
def edgeFile (parse : String → ParseOut) (f : DepFile) : Prop :=
  ∃ p, f ∈ (parse p).transitive ∨ f ∈ (parse p).nonTransitive

/-- A dependency the resolver loop created for an edge: its `file` is
the edge `DepFile` verbatim — no type promotion — and its modules are
its own scan outcome. -/
def EdgeDep (parse : String → ParseOut) (d : Dependency) : Prop :=
  edgeFile parse d.file ∧ d.modules = (parse d.file.path).modules

/-- The dependency stack during the resolver loop: never empty, the
bottom is the (promoted) root carrying its own scan modules, and every
entry above it is an edge dependency. -/
def StackOk (parse : String → ParseOut) (rootF : DepFile)
    (rootM : ModulesRec) : List Dependency → Prop
  | [] => False
  | [b] => b.file = rootF ∧ b.modules = rootM
  | d :: rest => EdgeDep parse d ∧ StackOk parse rootF rootM rest

/-- Cache bindings the resolver can produce: pre-existing ones, and
loop insertions, whose value is an edge dependency. -/
def CacheOk (parse : String → ParseOut)
    (init cache : List (DepFile × Dependency)) : Prop :=
  ∀ kv ∈ cache, kv ∈ init ∨ EdgeDep parse kv.2

/-- The resolver-loop invariant for claim C9: pop markers match the
stack height, the stack is root-bottomed with edge dependencies above,
every loop-made cache value is an edge dependency, and every queued
record names an edge file. -/
def LoopInv (parse : String → ParseOut) (rootF : DepFile)
    (rootM : ModulesRec) (init : List (DepFile × Dependency))
    (st : LoopSt) : Prop :=
  popCount st.toExam + 1 = st.depStack.length ∧
  StackOk parse rootF rootM st.depStack ∧
  CacheOk parse init st.fileCache ∧
  ∀ i ∈ st.toExam, edgeFile parse i.file

/-- Claim C9: the cache state after resolving `c9root` against the
scans where the header provides module `M`. -/
def c9st1 : RSt :=
  match resolveDependency (c9Parse none (some "M")) 4 {} c9root with
  | some (.ok st) => st
  | _ => {}

/-- Claim C3: a filesystem where the target `f` was built at time 10,
dependency `x` changed at time 20, and dependency `y` is missing. -/
def c3fs : FSm := fun p =>
  if p == "f" then .ok { modified := .ok 10 }
  else if p == "x" then .ok { modified := .ok 20 }
  else .error .notFound

/-- Claim C3: the dependency record whose `direct` list holds the newer
`x` before the missing `y`. -/
def c3dep : Dependency :=
  { file := { path := "f", typ := none },
    direct := [{ path := "x", typ := none }, { path := "y", typ := none }] }

/-- Claim C5: the characters of `include "a"` plus newline, following a
`#`. -/
def c5coreTail : List Char :=
  ['i', 'n', 'c', 'l', 'u', 'd', 'e', ' ', '"', 'a', '"', '\n']

/-- Claim C5: the characters of the line `#include "a"` plus newline. -/
def c5core : List Char := '#' :: c5coreTail

/-- Claim C7: `export module foo;` then `import :part;`. -/
def c7content : List Char :=
  ['e', 'x', 'p', 'o', 'r', 't', ' ', 'm', 'o', 'd', 'u', 'l', 'e', ' ',
   'f', 'o', 'o', ';', '\n',
   'i', 'm', 'p', 'o', 'r', 't', ' ', ':', 'p', 'a', 'r', 't', ';', '\n']

/-- Claim C4: object file `a.o`. -/
def c4fA : DepFile := { path := "a.o", typ := some ⟨Language.c, FileState.object⟩ }

/-- Claim C4: object file `b.o`. -/
def c4fB : DepFile := { path := "b.o", typ := some ⟨Language.c, FileState.object⟩ }

/-- Claim C4: the command producing `a.o`, requiring `b.o`. -/
def c4cA : QCommand := { command := 0, requires := [c4fB], provides := [c4fA] }

/-- Claim C4: the command producing `b.o`, requiring `a.o`. -/
def c4cB : QCommand := { command := 1, requires := [c4fA], provides := [c4fB] }

/-- Claim C4: a fresh state whose queued commands require each other,
with nothing built, nothing to fetch and nothing running. -/
def c4St : BSt := mkInit 1 [] [] [c4cA, c4cB]

/-- A trivial environment used to instantiate universally quantified
scheduler theorems: children never exit, waits succeed. -/
def envTriv : SchedEnv :=
  { compile := fun _ _ => .error (.generic "no compiler")
    fill := fun _ c d => .ok (c, d)
    upToDateQ := fun _ _ => .ok true
    spawnOk := fun _ => none
    tryWaitQ := fun _ _ => .ok none
    waitQ := fun _ _ => .ok { success := true, code := none } }

/-- Claim C2: the one dependency queued for building. -/
def c2dep : Dependency :=
  { file := { path := "out.o", typ := some ⟨Language.c, FileState.object⟩ } }

/-- Claim C2: an environment whose compile step turns `c2dep` into a
ready command with no inputs, whose spawn succeeds, and whose blocking
`wait` fails. -/
def c2Env : SchedEnv :=
  { compile := fun _ _ => .ok (7, [])
    fill := fun _ c d => .ok (c, d)
    upToDateQ := fun _ _ => .ok true
    spawnOk := fun _ => none
    tryWaitQ := fun _ _ => .ok none
    waitQ := fun _ _ => .error (.io .other) }

/-- Claim C2: the initial state queueing `c2dep` with one worker. -/
def c2St : BSt := mkInit 1 [] [c2dep] []

/-- The children currently in the local pool. -/
def poolCh (st : BSt) : List Nat := st.pool.map Prod.fst

/-- A child whose process entry has been released or dealt with: reaped
by a successful `wait`/`try_wait`, dropped by the failed `wait` inside
`wait_for_all`, or kill-attempted in `build`'s drain. -/
def accounted (st : BSt) (c : Nat) : Prop :=
  c ∈ st.reaped ∨ c ∈ st.wfallDropped ∨ c ∈ st.killedAttempted

/-- Every spawned child is accounted for or still sitting in the pool. -/
def ReapInv (st : BSt) : Prop :=
  ∀ c ∈ st.spawned, accounted st c ∨ c ∈ poolCh st

/-- Two states with identical pool and process-accounting fields. -/
def sameProc (st st' : BSt) : Prop :=
  st'.pool = st.pool ∧ st'.spawned = st.spawned ∧ st'.reaped = st.reaped ∧
  st'.wfallDropped = st.wfallDropped ∧
  st'.killedAttempted = st.killedAttempted

/-- Claim C2: the run of `build` on `c2St` under `c2Env`. -/
def c2Run : Option (Except RError Unit × BSt) := build c2Env 9 c2St

/-!
## Theorems
-/

/-- C8: the worker budget at `available_parallelism() = 2` is 0, not the
claimed `max 1 (2 - 2) = 1`: `checked_sub(2)` on 2 is `some 0`, so the
`unwrap_or(1)` fallback never fires and the clamp to ≥ 1 is lost. -/
theorem c8_thread_count_at_two :
    rustThreadCount (some 2) = 0 ∧ max 1 (2 - 2) = 1 ∧
    rustThreadCount (some 2) ≠ max 1 (2 - 2) := by
  decide

/-- C6: the module-import payloads do not exclude the delimiters —
`import <vector>;` is reported as `SystemModule "<vector"` (the `<` is
part of the payload) and `import "m";` as `UserModule ""` (the reader is
parked on the opening quote, so the name-reading loop stops at once). -/
theorem c6_import_delimiters :
    getIncludedFilesFuel 64 (String.toList "import <vector>;\n")
      = some [IncFile.systemModule "<vector"] ∧
    getIncludedFilesFuel 64 (String.toList "import \"m\";\n")
      = some [IncFile.userModule ""] ∧
    IncFile.systemModule "<vector" ≠ IncFile.systemModule "vector" ∧
    IncFile.userModule "" ≠ IncFile.userModule "m" := by
  decide

/-- C7: in a file with `export module foo;`, the line `import :part;` is
scanned as `ImpModule ":"` — the reader never advances past the `:`, so
the partition identifier is lost — and the resolver's rewrite records
the import as `"foo:"`, not `"foo:part"`. -/
theorem c7_partition_lost :
    getIncludedFilesFuel 64 c7content
      = some [IncFile.expModule "foo", IncFile.impModule ":"] ∧
    (parseIncsFold "src" [IncFile.expModule "foo", IncFile.impModule ":"]
        (Dependency.empty
          { path := "src/m.cpp",
            typ := some ⟨Language.cpp, FileState.source⟩ })).modules.imports
      = ["foo:"] ∧
    ["foo:"] ≠ ["foo:part"] := by
  decide

/-- C10: on the one-character input `"` the scanner never returns: at
end of input `read_string` comes back immediately with the quote still
current, and the main loop re-enters it forever.  No fuel suffices. -/
theorem c10_scanner_hangs_on_quote :
    ∀ fuel, getIncludedFilesFuel fuel ['"'] = none := by
  have key : ∀ (n : Nat) (pn : Bool), scanLoop n true pn '"' [] [] = none := by
    intro n
    induction n with
    | zero => intro pn; rfl
    | succ k ih =>
      intro pn
      rw [show scanLoop (k + 1) true pn '"' [] []
            = scanLoop k true false '"' [] [] from rfl]
      exact ih false
  intro fuel
  exact key fuel true

/-- C5 counterexample: a line of whitespace followed by `#include "a"`
does emit the directive — `prev_newline` is not reset by whitespace, so
the indented `#` still starts a directive, contradicting the claimed
strict column-0 policy. -/
theorem c5_counterexample :
    getIncludedFilesFuel 64 (' ' :: c5core) = some [IncFile.user "a"] ∧
    [IncFile.user "a"] ≠ ([] : List IncFile) := by
  decide

/-- One whitespace step of the scanner's main loop: a non-newline
whitespace character is skipped, consuming one fuel unit and leaving
every flag (including `prev_newline`) unchanged. -/
theorem scanLoop_ws_step (n : Nat) (ms pn : Bool) (cur r : Char)
    (rs : List Char) (res : List IncFile)
    (h1 : rustIsWhitespace cur = true) (h2 : cur ≠ '\n') :
    scanLoop (n + 1) ms pn cur (r :: rs) res = scanLoop n ms pn r rs res := by
  have hbeq : (cur == '\n') = false := beq_eq_false_iff_ne.mpr h2
  simp [scanLoop, hbeq, h1]

/-- Skipping a whole run of non-newline whitespace preserves the scanner
state and consumes exactly the run's length in fuel. -/
theorem scanLoop_skip_ws :
    ∀ (ws : List Char) (fuel : Nat) (ms pn : Bool) (cur r : Char)
      (rs : List Char) (res : List IncFile),
      rustIsWhitespace cur = true → cur ≠ '\n' →
      (∀ c ∈ ws, rustIsWhitespace c = true ∧ c ≠ '\n') →
      scanLoop (ws.length + fuel + 1) ms pn cur (ws ++ r :: rs) res
        = scanLoop fuel ms pn r rs res := by
  intro ws
  induction ws with
  | nil =>
    intro fuel ms pn cur r rs res h1 h2 _
    simp only [List.length_nil, List.nil_append, Nat.zero_add]
    exact scanLoop_ws_step fuel ms pn cur r rs res h1 h2
  | cons w ws ih =>
    intro fuel ms pn cur r rs res h1 h2 hws
    have step := scanLoop_ws_step (ws.length + fuel + 1) ms pn cur w
      (ws ++ r :: rs) res h1 h2
    have : (w :: ws).length + fuel + 1 = (ws.length + fuel + 1) + 1 := by
      simp [List.length_cons]; omega
    rw [this, List.cons_append, step]
    exact ih fuel ms pn w r rs res (hws w (by simp)).1 (hws w (by simp)).2
      (fun c hc => hws c (by simp [hc]))

/-- C5 amended: leading non-newline whitespace before `#` does not
prevent directive recognition — the whitespace arm of the main loop
leaves `prev_newline` set, so the indented `#include "a"` is still
reported. -/
theorem c5_amended_indented_include_recognised
    (ws : List Char) (hne : ws ≠ [])
    (hws : ∀ c ∈ ws, rustIsWhitespace c = true ∧ c ≠ '\n') :
    getIncludedFilesFuel (ws.length + 51) (ws ++ c5core)
      = some [IncFile.user "a"] := by
  match ws, hne with
  | w :: ws1, _ =>
    show scanLoop ((w :: ws1).length + 51) true true w (ws1 ++ c5core) []
      = some [IncFile.user "a"]
    have hlen : (w :: ws1).length + 51 = ws1.length + 51 + 1 := by
      simp [List.length_cons]
    rw [hlen, show (ws1 ++ c5core) = ws1 ++ '#' :: c5coreTail from rfl,
      scanLoop_skip_ws ws1 51 true true w '#' c5coreTail []
        (hws w (List.mem_cons_self w ws1)).1 (hws w (List.mem_cons_self w ws1)).2
        (fun c hc => hws c (List.mem_cons_of_mem w hc))]
    decide

/-- C5 amended, witness at the single-space run. -/
theorem c5_amended_witness :
    ([' '] : List Char) ≠ [] ∧
    (∀ c ∈ ([' '] : List Char), rustIsWhitespace c = true ∧ c ≠ '\n') ∧
    getIncludedFilesFuel (([' '] : List Char).length + 51) ([' '] ++ c5core)
      = some [IncFile.user "a"] :=
  ⟨by decide, by decide,
    c5_amended_indented_include_recognised [' '] (by decide) (by decide)⟩

/-- The loop state three iterations in on the C1 cycle is periodic with
period two: a cached file is still re-parsed and re-expanded (the cache
hit does not skip the rest of the iteration), so each iteration pushes
the partner header back onto `to_exam`. -/
theorem c1_period :
    resolveStep c1Parse (resolveStep c1Parse c1Sa) = c1Sa := by
  decide

/-- `to_exam` is non-empty in the first periodic state. -/
theorem c1_Sa_nonempty : c1Sa.toExam.isEmpty = false := by decide

/-- `to_exam` is non-empty in the second periodic state. -/
theorem c1_Sb_nonempty :
    (resolveStep c1Parse c1Sa).toExam.isEmpty = false := by decide

/-- From either periodic state, the resolver loop exhausts any fuel. -/
theorem c1_loop_periodic (n : Nat) :
    resolveLoop c1Parse n c1Sa = none ∧
    resolveLoop c1Parse n (resolveStep c1Parse c1Sa) = none := by
  induction n with
  | zero =>
    exact ⟨by simp [resolveLoop, c1_Sa_nonempty],
      by simp [resolveLoop, c1_Sb_nonempty]⟩
  | succ k ih =>
    constructor
    · show resolveLoop c1Parse (k + 1) c1Sa = none
      simp only [resolveLoop, c1_Sa_nonempty, Bool.false_eq_true,
        if_false]
      exact ih.2
    · show resolveLoop c1Parse (k + 1) (resolveStep c1Parse c1Sa) = none
      simp only [resolveLoop, c1_Sb_nonempty, Bool.false_eq_true,
        if_false]
      rw [c1_period]
      exact ih.1

/-- From the initial loop state of the C1 resolution, the loop exhausts
any fuel: three iterations reach the periodic state. -/
theorem c1_loop_diverges (n : Nat) : resolveLoop c1Parse n c1S0 = none := by
  match n with
  | 0 => decide
  | 1 => decide
  | 2 => decide
  | (k + 3) =>
    have h0 : c1S0.toExam.isEmpty = false := by decide
    have h1 : (resolveStep c1Parse c1S0).toExam.isEmpty = false := by decide
    have h2 : (resolveStep c1Parse (resolveStep c1Parse c1S0)).toExam.isEmpty
        = false := by decide
    have e3 : resolveStep c1Parse (resolveStep c1Parse (resolveStep c1Parse c1S0))
        = c1Sa := rfl
    show resolveLoop c1Parse (k + 1 + 1 + 1) c1S0 = none
    simp only [resolveLoop, h0, h1, h2, Bool.false_eq_true, if_false, e3]
    exact (c1_loop_periodic k).1

/-- C1: resolving `a.h` when `a.h` includes `b.h` and `b.h` includes
`a.h` never terminates — the `file_cache` hit does not short-circuit
re-entry (the loop re-parses and re-expands the cached file), so the
work stack never empties and no fuel suffices. -/
theorem c1_include_cycle_diverges :
    ∀ fuel, resolveDependency c1Parse fuel {} c1A = none := by
  intro fuel
  show (resolveLoop c1Parse fuel c1S0).map (resolvePost c1A) = none
  rw [c1_loop_diverges fuel]
  rfl

theorem popCount_cons (i : DepInfo) (l : List DepInfo) :
    popCount (i :: l) = (if i.pop then 1 else 0) + popCount l := by
  by_cases hi : i.pop = true
  · simp only [popCount, List.filter_cons]
    rw [if_pos hi, if_pos hi]
    simp only [List.length_cons]
    omega
  · simp only [popCount, List.filter_cons]
    rw [if_neg hi, if_neg hi]
    omega

theorem popCount_cons_true (f : DepFile) (tb : Bool) (l : List DepInfo) :
    popCount ((⟨f, true, tb⟩ : DepInfo) :: l) = popCount l + 1 := by
  rw [popCount_cons, if_pos rfl]
  omega

theorem popCount_append (a b : List DepInfo) :
    popCount (a ++ b) = popCount a + popCount b := by
  simp [popCount, List.filter_append]

theorem popCount_reverse (l : List DepInfo) :
    popCount l.reverse = popCount l := by
  simp [popCount, List.filter_reverse]

theorem popCount_edges (b : Bool) (l : List DepFile) :
    popCount (l.map (fun x => (⟨x, false, b⟩ : DepInfo))) = 0 := by
  induction l with
  | nil => rfl
  | cons d rest ih =>
    simp only [List.map_cons, popCount_cons]
    rw [if_neg (by simp)]
    omega

theorem popCount_initExam (d : Dependency) : popCount (initExam d) = 0 := by
  simp only [initExam, vextend, List.append_nil]
  rw [popCount_append, popCount_reverse, popCount_reverse, popCount_edges,
    popCount_edges]

theorem vextend_mem {α : Type} (s xs : List α) (x : α) :
    x ∈ vextend s xs ↔ x ∈ xs ∨ x ∈ s := by
  simp [vextend, List.mem_append, List.mem_reverse]

theorem initExam_mem (d : Dependency) (i : DepInfo) (hi : i ∈ initExam d) :
    i.file ∈ d.transitive ∨ i.file ∈ d.nonTransitive := by
  simp only [initExam] at hi
  rcases (vextend_mem _ _ _).mp hi with h | h
  · obtain ⟨x, hx, he⟩ := List.mem_map.mp h
    subst he
    exact Or.inr hx
  · rcases (vextend_mem _ _ _).mp h with h2 | h2
    · obtain ⟨x, hx, he⟩ := List.mem_map.mp h2
      subst he
      exact Or.inl hx
    · simp at h2

theorem pushChildren_popCount (toExam : List DepInfo) (dep : Dependency)
    (exam' : List DepInfo) (h : pushChildren toExam dep = some exam') :
    popCount exam' = popCount toExam + 1 := by
  unfold pushChildren at h
  rcases hdt : dep.transitive with - | ⟨d, ts⟩
  · rw [hdt] at h
    simp only [] at h
    rcases hdn : dep.nonTransitive with - | ⟨d2, nts⟩
    · rw [hdn] at h
      exact Option.noConfusion h
    · rw [hdn] at h
      simp only [] at h
      rw [Option.some.injEq] at h
      subst h
      simp only [vextend, vpush]
      rw [popCount_append, popCount_reverse, popCount_edges, popCount_cons_true]
      omega
  · rw [hdt] at h
    simp only [] at h
    rw [Option.some.injEq] at h
    subst h
    simp only [vextend, vpush]
    rw [popCount_append, popCount_reverse, popCount_edges, popCount_append,
      popCount_reverse, popCount_edges, popCount_cons_true]
    omega

theorem pushChildren_mem (toExam : List DepInfo) (dep : Dependency)
    (exam' : List DepInfo) (h : pushChildren toExam dep = some exam')
    (i : DepInfo) (hi : i ∈ exam') :
    i ∈ toExam ∨ i.file ∈ dep.transitive ∨ i.file ∈ dep.nonTransitive := by
  unfold pushChildren at h
  rcases hdt : dep.transitive with - | ⟨d, ts⟩
  · rw [hdt] at h
    simp only [] at h
    rcases hdn : dep.nonTransitive with - | ⟨d2, nts⟩
    · rw [hdn] at h
      exact Option.noConfusion h
    · rw [hdn] at h
      simp only [] at h
      rw [Option.some.injEq] at h
      subst h
      rcases (vextend_mem _ _ _).mp hi with h1 | h1
      · obtain ⟨x, hx, he⟩ := List.mem_map.mp h1
        subst he
        exact Or.inr (Or.inr (List.mem_cons_of_mem _ hx))
      · rcases List.mem_cons.mp h1 with h2 | h2
        · subst h2
          exact Or.inr (Or.inr (List.mem_cons_self _ _))
        · exact Or.inl h2
  · rw [hdt] at h
    simp only [] at h
    rw [Option.some.injEq] at h
    subst h
    rcases (vextend_mem _ _ _).mp hi with h1 | h1
    · obtain ⟨x, hx, he⟩ := List.mem_map.mp h1
      subst he
      exact Or.inr (Or.inr hx)
    · rcases (vextend_mem _ _ _).mp h1 with h2 | h2
      · obtain ⟨x, hx, he⟩ := List.mem_map.mp h2
        subst he
        exact Or.inr (Or.inl (List.mem_cons_of_mem _ hx))
      · rcases List.mem_cons.mp h2 with h3 | h3
        · subst h3
          exact Or.inr (Or.inl (List.mem_cons_self _ _))
        · exact Or.inl h3

theorem insertCache_mem (cache : List (DepFile × Dependency)) (f : DepFile)
    (d : Dependency) (kv : DepFile × Dependency)
    (hkv : kv ∈ insertCache cache f d) :
    kv ∈ cache ∨ (kv.1.path = f.path ∧ kv.2 = d) := by
  induction cache with
  | nil =>
    simp only [insertCache, List.mem_singleton] at hkv
    subst hkv
    exact Or.inr ⟨rfl, rfl⟩
  | cons e rest ih =>
    unfold insertCache at hkv
    by_cases hp : e.1.path == f.path
    · rw [if_pos hp] at hkv
      rcases List.mem_cons.mp hkv with h1 | h1
      · subst h1
        exact Or.inr ⟨eq_of_beq hp, rfl⟩
      · exact Or.inl (List.mem_cons_of_mem _ h1)
    · rw [if_neg hp] at hkv
      rcases List.mem_cons.mp hkv with h1 | h1
      · subst h1
        exact Or.inl (List.mem_cons_self _ _)
      · rcases ih h1 with h2 | h2
        · exact Or.inl (List.mem_cons_of_mem _ h2)
        · exact Or.inr h2

theorem CacheOk_insert (parse : String → ParseOut)
    (init cache : List (DepFile × Dependency)) (f : DepFile)
    (d : Dependency) (hc : CacheOk parse init cache)
    (hd : EdgeDep parse d) : CacheOk parse init (insertCache cache f d) := by
  intro kv hkv
  rcases insertCache_mem cache f d kv hkv with h1 | h1
  · exact hc kv h1
  · right
    rw [h1.2]
    exact hd

theorem StackOk_replaceTop (parse : String → ParseOut) (rootF : DepFile)
    (rootM : ModulesRec) (top top' : Dependency) (more : List Dependency)
    (hf : top'.file = top.file) (hm : top'.modules = top.modules)
    (h : StackOk parse rootF rootM (top :: more)) :
    StackOk parse rootF rootM (top' :: more) := by
  cases more with
  | nil =>
    obtain ⟨h1, h2⟩ := h
    exact ⟨hf.trans h1, hm.trans h2⟩
  | cons e r =>
    obtain ⟨⟨he, hmo⟩, h2⟩ := h
    refine ⟨⟨?_, ?_⟩, h2⟩
    · rw [hf]
      exact he
    · rw [hm, hf]
      exact hmo

theorem resolveStep_inv (parse : String → ParseOut) (rootF : DepFile)
    (rootM : ModulesRec) (init : List (DepFile × Dependency)) (st : LoopSt)
    (hinv : LoopInv parse rootF rootM init st) :
    LoopInv parse rootF rootM init (resolveStep parse st) := by
  obtain ⟨hpc, hsk, hco, hex⟩ := hinv
  unfold resolveStep
  rcases hte : st.toExam with - | ⟨info, restExam⟩
  · exact ⟨hpc, hsk, hco, hex⟩
  · simp only []
    have hexInfo : edgeFile parse info.file := by
      refine hex info ?_
      rw [hte]
      exact List.mem_cons_self _ _
    have hexRest : ∀ i ∈ restExam, edgeFile parse i.file := by
      intro i hi
      refine hex i ?_
      rw [hte]
      exact List.mem_cons_of_mem _ hi
    have hpcc : (if info.pop then 1 else 0) + popCount restExam + 1
        = st.depStack.length := by
      rw [← popCount_cons, ← hte]
      exact hpc
    have hED : EdgeDep parse (parseDep parse info.file) := ⟨hexInfo, rfl⟩
    rcases hds : st.depStack with - | ⟨top0, more0⟩
    · rw [hds] at hsk
      exact hsk.elim
    · rw [hds] at hpcc hsk
      have hcont : ∀ top1 : Dependency,
          StackOk parse rootF rootM (top1 :: more0) →
          LoopInv parse rootF rootM init
            (let dep := parseDep parse info.file
             let (exam2, stack2, cache2) :=
               match pushChildren restExam dep with
               | some exam' => (exam', vpush (top1 :: more0) dep, st.fileCache)
               | none =>
                 (restExam, top1 :: more0,
                  insertCache st.fileCache dep.file dep)
             if info.pop then
               match stack2 with
               | popped :: stackRest =>
                 let stack3 :=
                   match stackRest with
                   | top :: more =>
                     if info.transitive then
                       { top with
                         transitive :=
                           extendDF top.transitive popped.transitive } :: more
                     else
                       { top with
                         nonTransitive :=
                           extendDF top.nonTransitive popped.transitive } :: more
                   | [] => stackRest
                 let mm :=
                   match popped.modules.provides with
                   | some m => insertModule st.moduleMap m popped.file
                   | none => st.moduleMap
                 { toExam := exam2, depStack := stack3,
                   fileCache := insertCache cache2 popped.file popped,
                   moduleMap := mm }
               | [] =>
                 { toExam := exam2, depStack := stack2, fileCache := cache2,
                   moduleMap := st.moduleMap }
             else
               { toExam := exam2, depStack := stack2, fileCache := cache2,
                 moduleMap := st.moduleMap }) := by
        intro top1 hsk1
        simp only []
        rcases hpch : pushChildren restExam (parseDep parse info.file)
          with - | exam'
        · simp only []
          have hcoI : CacheOk parse init
              (insertCache st.fileCache (parseDep parse info.file).file
                (parseDep parse info.file)) :=
            CacheOk_insert parse init _ _ _ hco hED
          split
          · next hip =>
            rcases more0 with - | ⟨top2, more1⟩
            · exfalso
              rw [if_pos hip] at hpcc
              simp only [List.length_cons, List.length_nil] at hpcc
              omega
            · simp only []
              refine ⟨?_, ?_, ?_, hexRest⟩
              · rw [if_pos hip] at hpcc
                simp only [List.length_cons] at hpcc
                show popCount restExam + 1 = _
                split <;> simp only [List.length_cons] <;> omega
              · show StackOk parse rootF rootM _
                split
                · exact StackOk_replaceTop parse rootF rootM top2 _ more1
                    rfl rfl hsk1.2
                · exact StackOk_replaceTop parse rootF rootM top2 _ more1
                    rfl rfl hsk1.2
              · exact CacheOk_insert parse init _ _ _ hcoI hsk1.1
          · next hip =>
            rw [if_neg hip] at hpcc
            refine ⟨?_, hsk1, hcoI, hexRest⟩
            simp only [List.length_cons] at hpcc ⊢
            omega
        · simp only []
          have hpcs := pushChildren_popCount restExam _ exam' hpch
          have hexE : ∀ i ∈ exam', edgeFile parse i.file := by
            intro i hi
            rcases pushChildren_mem restExam _ exam' hpch i hi
              with h1 | h1 | h1
            · exact hexRest i h1
            · exact ⟨info.file.path, Or.inl h1⟩
            · exact ⟨info.file.path, Or.inr h1⟩
          split
          · next hip =>
            rw [if_pos hip] at hpcc
            simp only [vpush]
            refine ⟨?_, ?_, ?_, hexE⟩
            · rw [hpcs]
              simp only [List.length_cons] at hpcc
              show popCount restExam + 1 + 1 = _
              split <;> simp only [List.length_cons] <;> omega
            · show StackOk parse rootF rootM _
              split
              · exact StackOk_replaceTop parse rootF rootM top1 _ more0
                  rfl rfl hsk1
              · exact StackOk_replaceTop parse rootF rootM top1 _ more0
                  rfl rfl hsk1
            · exact CacheOk_insert parse init _ _ _ hco hED
          · next hip =>
            rw [if_neg hip] at hpcc
            refine ⟨?_, ⟨hED, hsk1⟩, hco, hexE⟩
            rw [hpcs]
            simp only [vpush, List.length_cons] at hpcc ⊢
            omega
      rcases hlk : lookupCache st.fileCache info.file with - | cached
      · exact hcont top0 hsk
      · exact hcont _
          (StackOk_replaceTop parse rootF rootM top0 _ more0 rfl rfl hsk)

theorem resolveLoop_inv (parse : String → ParseOut) (rootF : DepFile)
    (rootM : ModulesRec) (init : List (DepFile × Dependency)) :
    ∀ (fuel : Nat) (st st' : LoopSt),
      resolveLoop parse fuel st = some st' →
      LoopInv parse rootF rootM init st →
      LoopInv parse rootF rootM init st' := by
  intro fuel
  induction fuel with
  | zero =>
    intro st st' h hinv
    unfold resolveLoop at h
    split at h
    · rw [Option.some.injEq] at h
      subst h
      exact hinv
    · cases h
  | succ k ih =>
    intro st st' h hinv
    unfold resolveLoop at h
    split at h
    · rw [Option.some.injEq] at h
      subst h
      exact hinv
    · exact ih _ _ h (resolveStep_inv parse rootF rootM init st hinv)

theorem LoopInv_init (parse : String → ParseOut)
    (init : List (DepFile × Dependency)) (mm : List (String × DepFile))
    (d : Dependency) (p0 : String)
    (ht : d.transitive = (parse p0).transitive)
    (hn : d.nonTransitive = (parse p0).nonTransitive) :
    LoopInv parse d.file d.modules init
      { toExam := initExam d, depStack := [d], fileCache := init,
        moduleMap := mm } := by
  refine ⟨?_, ⟨rfl, rfl⟩, fun kv hkv => Or.inl hkv, ?_⟩
  · show popCount (initExam d) + 1 = 1
    rw [popCount_initExam]
  · intro i hi
    rcases initExam_mem d i hi with h | h
    · rw [ht] at h
      exact ⟨p0, Or.inl h⟩
    · rw [hn] at h
      exact ⟨p0, Or.inr h⟩

/-- C9 amended: only the root of a `resolve_dependency` call is
promoted.  For every scan oracle, fuel, prior cache and root file, each
binding of the resulting `file_cache` is pre-existing, or is the root
binding — keyed at the root path, carrying the root scan's modules,
with kind `SourceModule` exactly when that scan provides a module and
the root's own kind otherwise — or is a loop insertion whose value
keeps the edge `DepFile` some scan produced verbatim (in the real
parser always `DepFile::header`'s `Header` kind) together with its own
scan's modules: transitively reached files, at any depth and on the
pop path included, are never promoted, even when they provide a
module. -/
theorem c9_amended_root_only_promotion (parse : String → ParseOut)
    (fuel : Nat) (st0 : RSt) (file0 : DepFile) (st' : RSt)
    (h : resolveDependency parse fuel st0 file0 = some (.ok st')) :
    ∀ kv ∈ st'.fileCache,
      kv ∈ st0.fileCache ∨
      (kv.1.path = file0.path ∧
       kv.2.modules = (parse file0.path).modules ∧
       kv.2.file.typ =
         (if (parse file0.path).modules.provides.isSome then
            some ⟨Language.cpp, FileState.sourceModule⟩
          else file0.typ)) ∨
      (edgeFile parse kv.2.file ∧
       kv.2.modules = (parse kv.2.file.path).modules) := by
  unfold resolveDependency at h
  split at h
  · rw [Option.some.injEq, Except.ok.injEq] at h
    subst h
    intro kv hkv
    exact Or.inl hkv
  · simp only [] at h
    rw [Option.map_eq_some'] at h
    obtain ⟨stL, hL, hpost⟩ := h
    have hinvL := resolveLoop_inv parse _ _ st0.fileCache fuel _ stL hL
      (LoopInv_init parse st0.fileCache st0.moduleMap _ file0.path rfl rfl)
    obtain ⟨-, hskL, hcoL, -⟩ := hinvL
    unfold resolvePost at hpost
    rcases hstk : stL.depStack with - | ⟨res, - | ⟨res2, rest3⟩⟩
    · rw [hstk] at hpost
      exact Except.noConfusion hpost
    · rw [hstk] at hpost
      simp only [] at hpost
      rw [Except.ok.injEq] at hpost
      subst hpost
      rw [hstk] at hskL
      obtain ⟨hrf, hrm⟩ := hskL
      intro kv hkv
      rcases insertCache_mem _ _ _ kv hkv with h1 | ⟨hpath, hval⟩
      · rcases hcoL kv h1 with h2 | h2
        · exact Or.inl h2
        · exact Or.inr (Or.inr h2)
      · refine Or.inr (Or.inl ⟨?_, ?_, ?_⟩)
        · exact hpath
        · rw [hval]
          exact hrm.trans rfl
        · rw [hval, hrf]
          rfl
    · rw [hstk] at hpost
      exact Except.noConfusion hpost

/-- C9 witness: the amended theorem applied to the concrete resolution
of `c9root` (which includes `h.hpp`, a header providing module `M`),
with the hypothesis discharged by computation. -/
theorem c9_amended_witness :
    resolveDependency (c9Parse none (some "M")) 4 {} c9root
      = some (.ok c9st1) ∧
    ∀ kv ∈ c9st1.fileCache,
      kv ∈ ({} : RSt).fileCache ∨
      (kv.1.path = c9root.path ∧
       kv.2.modules = (c9Parse none (some "M") c9root.path).modules ∧
       kv.2.file.typ =
         (if (c9Parse none (some "M") c9root.path).modules.provides.isSome
          then some ⟨Language.cpp, FileState.sourceModule⟩
          else c9root.typ)) ∨
      (edgeFile (c9Parse none (some "M")) kv.2.file ∧
       kv.2.modules = (c9Parse none (some "M") kv.2.file.path).modules) :=
  ⟨rfl, c9_amended_root_only_promotion (c9Parse none (some "M")) 4 {} c9root
    c9st1 rfl⟩

/-- C9 counterexample: after resolving a root that includes a
module-providing header, the header's cache entry carries a non-empty
`provides` yet keeps kind `Header` — the claimed promotion iff fails for
transitively reached files. -/
theorem c9_counterexample :
    (c9lookup none (some "M") c9hdr).map
        (fun d => (d.file.typ, d.modules.provides))
      = some (some ⟨Language.cpp, FileState.header⟩, some "M")
    ∧ (⟨Language.cpp, FileState.header⟩ : FileType)
        ≠ ⟨Language.cpp, FileState.sourceModule⟩ := by
  exact ⟨rfl, by decide⟩

/-- The dependency scan succeeds with `true` exactly when every entry's
timestamp is available and not newer than the file's. -/
theorem depsUpToDate_ok_true_iff (fs : FSm) (t : Nat) :
    ∀ l : List DepFile,
      depsUpToDate fs t l = .ok true ↔
        ∀ x ∈ l, ∃ mx, modOf fs x.path = .ok mx ∧ mx ≤ t := by
  intro l
  induction l with
  | nil => simp [depsUpToDate]
  | cons d rest ih =>
    cases hfs : fs d.path with
    | error e => simp [depsUpToDate, hfs, modOf]
    | ok m =>
      cases hm : m.modified with
      | error e => simp [depsUpToDate, hfs, hm, modOf]
      | ok mx =>
        by_cases hlt : t < mx
        · simp only [depsUpToDate, hfs, hm, if_pos hlt, List.forall_mem_cons,
            modOf]
          constructor
          · intro h; exact absurd h (by simp)
          · rintro ⟨⟨my, hmy, hle⟩, -⟩
            cases hmy
            omega
        · simp only [depsUpToDate, hfs, hm, if_neg hlt, List.forall_mem_cons,
            modOf, ih]
          constructor
          · intro h; exact ⟨⟨mx, rfl, by omega⟩, h⟩
          · rintro ⟨-, h⟩; exact h

/-- When every earlier entry is readable and not newer, a read failure
at `x` surfaces as the scan's error. -/
theorem depsUpToDate_error (fs : FSm) (t : Nat) :
    ∀ (pre : List DepFile) (x : DepFile) (post : List DepFile) (e : IOEKind),
      (∀ y ∈ pre, ∃ my, modOf fs y.path = .ok my ∧ my ≤ t) →
      modOf fs x.path = .error e →
      depsUpToDate fs t (pre ++ x :: post) = .error (.io e) := by
  intro pre
  induction pre with
  | nil =>
    intro x post e _ hx
    cases hfs : fs x.path with
    | error e1 =>
      simp only [modOf, hfs] at hx
      cases hx
      simp [depsUpToDate, hfs]
    | ok m =>
      simp only [modOf, hfs] at hx
      simp [depsUpToDate, hfs, hx]
  | cons y pre ih =>
    intro x post e hpre hx
    obtain ⟨my, hy, hle⟩ := hpre y (List.mem_cons_self y pre)
    cases hfs : fs y.path with
    | error e1 => simp only [modOf, hfs] at hy; cases hy
    | ok m =>
      simp only [modOf, hfs] at hy
      have hnlt : ¬ t < my := by omega
      simp only [List.cons_append, depsUpToDate, hfs, hy, if_neg hnlt]
      exact ih x post e (fun z hz => hpre z (List.mem_cons_of_mem y hz)) hx

/-- When every earlier entry is readable and not newer, a strictly newer
entry `x` short-circuits the scan to `false` — whatever follows it. -/
theorem depsUpToDate_newer (fs : FSm) (t : Nat) :
    ∀ (pre : List DepFile) (x : DepFile) (post : List DepFile) (mx : Nat),
      (∀ y ∈ pre, ∃ my, modOf fs y.path = .ok my ∧ my ≤ t) →
      modOf fs x.path = .ok mx → t < mx →
      depsUpToDate fs t (pre ++ x :: post) = .ok false := by
  intro pre
  induction pre with
  | nil =>
    intro x post mx _ hx hlt
    cases hfs : fs x.path with
    | error e1 => simp only [modOf, hfs] at hx; cases hx
    | ok m =>
      simp only [modOf, hfs] at hx
      simp [depsUpToDate, hfs, hx, hlt]
  | cons y pre ih =>
    intro x post mx hpre hx hlt
    obtain ⟨my, hy, hle⟩ := hpre y (List.mem_cons_self y pre)
    cases hfs : fs y.path with
    | error e1 => simp only [modOf, hfs] at hy; cases hy
    | ok m =>
      simp only [modOf, hfs] at hy
      have hnlt : ¬ t < my := by omega
      simp only [List.cons_append, depsUpToDate, hfs, hy, if_neg hnlt]
      exact ih x post mx (fun z hz => hpre z (List.mem_cons_of_mem y hz)) hx hlt

/-- C3 amended: `is_up_to_date` is `Ok(true)` iff the file exists, its
timestamp is available, and every entry of `direct ++ transitive` (the
scan order) is readable and not newer; a missing file or an
`Unsupported` own-timestamp yields `Ok(false)` at once; a dependency
read failure surfaces as an error only when no strictly newer
dependency precedes it in the scan, which otherwise short-circuits to
`Ok(false)`. -/
theorem c3_amended_up_to_date (fs : FSm) (d : Dependency) :
    (isUpToDate fs d = .ok true ↔
      fsExists fs d.file.path = true ∧
      ∃ t, modOf fs d.file.path = .ok t ∧
        ∀ x ∈ d.direct ++ d.transitive,
          ∃ mx, modOf fs x.path = .ok mx ∧ mx ≤ t) ∧
    (fsExists fs d.file.path = false → isUpToDate fs d = .ok false) ∧
    (modOf fs d.file.path = .error .unsupported → isUpToDate fs d = .ok false) ∧
    (∀ t e pre x post,
      modOf fs d.file.path = .ok t →
      d.direct ++ d.transitive = pre ++ x :: post →
      (∀ y ∈ pre, ∃ my, modOf fs y.path = .ok my ∧ my ≤ t) →
      modOf fs x.path = .error e →
      isUpToDate fs d = .error (.io e)) ∧
    (∀ t mx pre x post,
      modOf fs d.file.path = .ok t →
      d.direct ++ d.transitive = pre ++ x :: post →
      (∀ y ∈ pre, ∃ my, modOf fs y.path = .ok my ∧ my ≤ t) →
      modOf fs x.path = .ok mx → t < mx →
      isUpToDate fs d = .ok false) := by
  cases hfs : fs d.file.path with
  | error e =>
    have hex : fsExists fs d.file.path = false := by simp [fsExists, hfs]
    have hval : isUpToDate fs d = .ok false := by simp [isUpToDate, hex]
    refine ⟨?_, fun _ => hval, fun _ => hval, ?_, ?_⟩
    · simp [hval, hex]
    · intro t e1 pre x post hmod _ _ _
      simp only [modOf, hfs] at hmod; cases hmod
    · intro t mx pre x post hmod _ _ _ _
      simp only [modOf, hfs] at hmod; cases hmod
  | ok m =>
    have hex : fsExists fs d.file.path = true := by simp [fsExists, hfs]
    cases hm : m.modified with
    | error ek =>
      have hmo : modOf fs d.file.path = .error ek := by simp [modOf, hfs, hm]
      cases ek with
      | unsupported =>
        have hval : isUpToDate fs d = .ok false := by
          simp [isUpToDate, hex, hfs, hm]
        refine ⟨?_, ?_, fun _ => hval, ?_, ?_⟩
        · simp [hval, hmo]
        · intro h; rw [hex] at h; cases h
        · intro t e1 pre x post hmod; rw [hmo] at hmod; cases hmod
        · intro t mx pre x post hmod; rw [hmo] at hmod; cases hmod
      | notFound =>
        have hval : isUpToDate fs d = .error (.io .notFound) := by
          simp [isUpToDate, hex, hfs, hm]
        refine ⟨?_, ?_, ?_, ?_, ?_⟩
        · simp [hval, hmo]
        · intro h; rw [hex] at h; cases h
        · intro h; rw [hmo] at h; cases h
        · intro t e1 pre x post hmod; rw [hmo] at hmod; cases hmod
        · intro t mx pre x post hmod; rw [hmo] at hmod; cases hmod
      | permissionDenied =>
        have hval : isUpToDate fs d = .error (.io .permissionDenied) := by
          simp [isUpToDate, hex, hfs, hm]
        refine ⟨?_, ?_, ?_, ?_, ?_⟩
        · simp [hval, hmo]
        · intro h; rw [hex] at h; cases h
        · intro h; rw [hmo] at h; cases h
        · intro t e1 pre x post hmod; rw [hmo] at hmod; cases hmod
        · intro t mx pre x post hmod; rw [hmo] at hmod; cases hmod
      | other =>
        have hval : isUpToDate fs d = .error (.io .other) := by
          simp [isUpToDate, hex, hfs, hm]
        refine ⟨?_, ?_, ?_, ?_, ?_⟩
        · simp [hval, hmo]
        · intro h; rw [hex] at h; cases h
        · intro h; rw [hmo] at h; cases h
        · intro t e1 pre x post hmod; rw [hmo] at hmod; cases hmod
        · intro t mx pre x post hmod; rw [hmo] at hmod; cases hmod
    | ok t0 =>
      have hmo : modOf fs d.file.path = .ok t0 := by simp [modOf, hfs, hm]
      have hval : isUpToDate fs d = depsUpToDate fs t0 (d.direct ++ d.transitive) := by
        simp [isUpToDate, hex, hfs, hm]
      refine ⟨?_, ?_, ?_, ?_, ?_⟩
      · rw [hval, depsUpToDate_ok_true_iff]
        constructor
        · intro h; exact ⟨hex, t0, hmo, h⟩
        · rintro ⟨-, t1, hmo1, h⟩
          rw [hmo] at hmo1; cases hmo1
          exact h
      · intro h; rw [hex] at h; cases h
      · intro h; rw [hmo] at h; cases h
      · intro t e1 pre x post hmod hsplit hpre hx
        rw [hmo] at hmod; cases hmod
        rw [hval, hsplit]
        exact depsUpToDate_error fs t0 pre x post e1 hpre hx
      · intro t mx pre x post hmod hsplit hpre hx hlt
        rw [hmo] at hmod; cases hmod
        rw [hval, hsplit]
        exact depsUpToDate_newer fs t0 pre x post mx hpre hx hlt

/-- C3 amended, witness: the concrete filesystem `c3fs` and record
`c3dep` instantiate the error clause — `f` stamped 10, first direct
dependency `x` stamped 20 > 10 — so the short-circuit clause applies and
the result is `Ok(false)`. -/
theorem c3_amended_witness :
    isUpToDate c3fs c3dep = .ok false :=
  (c3_amended_up_to_date c3fs c3dep).2.2.2.2 10 20 []
    { path := "x", typ := none }
    [{ path := "y", typ := none }] rfl rfl (by simp) rfl (by omega)

/-- C3 counterexample: with the target present (stamp 10), a newer first
dependency (stamp 20) and a missing second dependency, `is_up_to_date`
returns `Ok(false)` — not the error the claim requires for a missing
dependency file. -/
theorem c3_counterexample :
    isUpToDate c3fs c3dep = .ok false ∧
    c3fs "y" = .error .notFound ∧
    ({ path := "y", typ := none } : DepFile) ∈ c3dep.direct ∧
    (∀ e, isUpToDate c3fs c3dep ≠ .error e) := by
  have h : isUpToDate c3fs c3dep = .ok false := by decide
  exact ⟨h, by decide, by decide, fun e => by rw [h]; exact fun hc => by cases hc⟩

/-- No collaborator error is `DependencyCycle` (that variant is built
only inside `select_command`). -/
theorem OErr.toE_ne_cycle (e : OErr) : e.toE ≠ RError.dependencyCycle := by
  cases e <;> simp [OErr.toE]

/-- `fetch_command` never reports `DependencyCycle`. -/
theorem fetchCommand_err_ne_cycle (env : SchedEnv) (st : BSt) (e : RError)
    (st' : BSt) (h : fetchCommand env st = (.error e, st')) :
    e ≠ RError.dependencyCycle := by
  unfold fetchCommand at h
  iterate 6 (all_goals (try simp only [] at h); all_goals (try split at h))
  all_goals rw [Prod.mk.injEq] at h
  all_goals obtain ⟨h1, h2⟩ := h
  all_goals first
    | exact Except.noConfusion h1
    | (injection h1 with h3; subst h3; exact OErr.toE_ne_cycle _)

/-- A found-none scan keeps every queue entry (only `requires` shrink). -/
theorem selectScan_none_length (built : List DepFile) :
    ∀ l : List QCommand, (selectScan built l).2 = none →
      (selectScan built l).1.length = l.length := by
  intro l
  induction l with
  | nil => intro _; rfl
  | cons c rest ih =>
    intro h
    rcases hs : selectScan built rest with ⟨rest1, r⟩
    rw [hs] at ih
    unfold selectScan at h ⊢
    rw [hs] at h ⊢
    cases r with
    | some x => simp at h
    | none =>
      by_cases hr : (retainReq built c).requires.isEmpty <;>
        simp [hr] at h ⊢
      exact ih rfl

/-- C4 part (a): when the reverse scan finds no ready command, the
dependency queue is empty, and the command queue is non-empty,
`select_command` signals `DependencyCycle` (leaving the retained
queue). -/
theorem selectCommand_signals_cycle (env : SchedEnv) (fuel : Nat) (st : BSt)
    (hscan : (selectScan st.built st.commandQueue).2 = none)
    (hdq : st.depQueue = []) (hcq : st.commandQueue ≠ []) :
    selectCommand env (fuel + 1) st
      = some (.error RError.dependencyCycle,
          { st with commandQueue := (selectScan st.built st.commandQueue).1 }) := by
  have hlen := selectScan_none_length st.built st.commandQueue hscan
  unfold selectCommand
  rcases hs : selectScan st.built st.commandQueue with ⟨cq1, r⟩
  rw [hs] at hscan hlen
  cases hscan
  unfold selectFetchLoop
  have hfetch :
      fetchCommand env { st with commandQueue := cq1 }
        = (.ok none, { st with commandQueue := cq1 }) := by
    unfold fetchCommand
    simp [hdq]
  rw [hfetch]
  have hne : cq1.isEmpty = false := by
    cases cq1 with
    | nil =>
      simp at hlen
      exact absurd (List.length_eq_zero.mp hlen.symm) hcq
    | cons a b => rfl
  simp [hne]

/-- The polling loop of `wait_and_run_command` never reports
`DependencyCycle`. -/
theorem warLoop_err_ne_cycle (env : SchedEnv) (cmd : QCommand) :
    ∀ (fuel : Nat) (st : BSt) (e : RError) (st' : BSt),
      warLoop env cmd fuel st = some (.error e, st') →
      e ≠ RError.dependencyCycle := by
  intro fuel
  induction fuel with
  | zero => intro st e st' h; cases h
  | succ k ih =>
    intro st e st' h
    unfold warLoop at h
    iterate 6 (all_goals (try simp only [] at h); all_goals (try split at h))
    all_goals
      try (rw [Option.some.injEq, Prod.mk.injEq] at h; obtain ⟨h1, h2⟩ := h)
    all_goals first
      | exact ih _ _ _ h
      | exact Except.noConfusion h1
      | (injection h1 with h3; subst h3; exact OErr.toE_ne_cycle _)
      | (injection h1 with h3; subst h3; simp)

/-- `wait_and_run_command` never reports `DependencyCycle`. -/
theorem waitAndRun_err_ne_cycle (env : SchedEnv) (cmd : QCommand)
    (fuel : Nat) (st : BSt) (e : RError) (st' : BSt)
    (h : waitAndRun env fuel st cmd = some (.error e, st')) :
    e ≠ RError.dependencyCycle := by
  unfold waitAndRun at h
  iterate 4 (all_goals (try split at h))
  all_goals
    try (rw [Option.some.injEq, Prod.mk.injEq] at h; obtain ⟨h1, h2⟩ := h)
  all_goals first
    | exact warLoop_err_ne_cycle env cmd fuel st e st' h
    | exact Except.noConfusion h1
    | (injection h1 with h3; subst h3; exact OErr.toE_ne_cycle _)

/-- `wait_for_all` never reports `DependencyCycle`. -/
theorem waitForAll_err_ne_cycle (env : SchedEnv) :
    ∀ (rpool : List (Nat × QCommand)) (st : BSt) (e : RError) (st' : BSt),
      wfAllGo env st rpool = (.error e, st') →
      e ≠ RError.dependencyCycle := by
  intro rpool
  induction rpool with
  | nil =>
    intro st e st' h
    rw [Prod.mk.injEq] at h
    exact Except.noConfusion h.1
  | cons x rest ih =>
    intro st e st' h
    unfold wfAllGo at h
    iterate 4 (all_goals (try split at h))
    all_goals first
      | exact ih _ _ _ h
      | (rw [Prod.mk.injEq] at h
         obtain ⟨h1, h2⟩ := h
         first
           | exact Except.noConfusion h1
           | (injection h1 with h3; subst h3; exact OErr.toE_ne_cycle _)
           | (injection h1 with h3; subst h3; simp))

/-- The polling loop of `wait_for_any` never reports `DependencyCycle`. -/
theorem wfaLoop_err_ne_cycle (env : SchedEnv) :
    ∀ (fuel : Nat) (st : BSt) (e : RError) (st' : BSt),
      wfaLoop env fuel st = some (.error e, st') →
      e ≠ RError.dependencyCycle := by
  intro fuel
  induction fuel with
  | zero => intro st e st' h; cases h
  | succ k ih =>
    intro st e st' h
    unfold wfaLoop at h
    iterate 6 (all_goals (try simp only [] at h); all_goals (try split at h))
    all_goals
      try (rw [Option.some.injEq, Prod.mk.injEq] at h; obtain ⟨h1, h2⟩ := h)
    all_goals first
      | exact ih _ _ _ h
      | exact Except.noConfusion h1
      | (injection h1 with h3; subst h3; exact OErr.toE_ne_cycle _)
      | (injection h1 with h3; subst h3; simp)

/-- `wait_for_any` never reports `DependencyCycle`. -/
theorem waitForAny_err_ne_cycle (env : SchedEnv)
    (fuel : Nat) (st : BSt) (e : RError) (st' : BSt)
    (h : waitForAny env fuel st = some (.error e, st')) :
    e ≠ RError.dependencyCycle := by
  unfold waitForAny at h
  split at h
  · rw [Option.some.injEq, Prod.mk.injEq] at h
    exact absurd h.1 (by simp)
  · exact wfaLoop_err_ne_cycle env fuel st e st' h

/-- The polling loop of `wait_for_any` never answers `false`. -/
theorem wfaLoop_not_false (env : SchedEnv) :
    ∀ (fuel : Nat) (st : BSt) (st' : BSt),
      wfaLoop env fuel st ≠ some (.ok false, st') := by
  intro fuel
  induction fuel with
  | zero => intro st st' h; cases h
  | succ k ih =>
    intro st st' h
    unfold wfaLoop at h
    iterate 6 (all_goals (try simp only [] at h); all_goals (try split at h))
    all_goals
      try (rw [Option.some.injEq, Prod.mk.injEq] at h; obtain ⟨h1, h2⟩ := h)
    all_goals first
      | exact ih _ _ h
      | exact Except.noConfusion h1
      | (injection h1 with h3; exact Bool.noConfusion h3)

/-- `wait_for_any` answers `false` only by its entry check, with the
state untouched — so the pool is empty there. -/
theorem waitForAny_false_pool_empty (env : SchedEnv)
    (fuel : Nat) (st : BSt) (st' : BSt)
    (h : waitForAny env fuel st = some (.ok false, st')) :
    st' = st ∧ st.pool = [] := by
  unfold waitForAny at h
  split at h
  · next hp =>
    rw [Option.some.injEq, Prod.mk.injEq] at h
    exact ⟨h.2.symm, List.isEmpty_iff.mp hp⟩
  · exact absurd h (wfaLoop_not_false env fuel st st')

/-- C4 part (b): whenever `build_with_pool` returns `DependencyCycle`,
the pool at that return is empty — the error is propagated only once no
running child remains. -/
theorem buildWithPool_cycle_pool_empty (env : SchedEnv) :
    ∀ (fuel : Nat) (st st' : BSt),
      buildWithPool env fuel st = some (.error RError.dependencyCycle, st') →
      st'.pool = [] := by
  intro fuel
  induction fuel with
  | zero => intro st st' h; cases h
  | succ k ih =>
    intro st st' h
    unfold buildWithPool at h
    rcases hsel : selectCommand env (k + 1) st with - | ⟨r, st1⟩
    · rw [hsel] at h; cases h
    · rw [hsel] at h
      rcases r with e | (- | cmd)
      · simp only [] at h
        by_cases he : e = RError.dependencyCycle
        · rw [if_pos he] at h
          rcases hwfa : waitForAny env (k + 1) st1 with - | ⟨r3, st2⟩
          · rw [hwfa] at h; cases h
          · rw [hwfa] at h
            rcases r3 with e2 | b
            · simp only [] at h
              rw [Option.some.injEq, Prod.mk.injEq] at h
              obtain ⟨h1, h2⟩ := h
              injection h1 with h3
              exact absurd h3
                (waitForAny_err_ne_cycle env (k + 1) st1 e2 st2 hwfa)
            · cases b
              · simp only [] at h
                rw [Option.some.injEq, Prod.mk.injEq] at h
                obtain ⟨-, h2⟩ := h
                subst h2
                obtain ⟨hst, hpool⟩ :=
                  waitForAny_false_pool_empty env (k + 1) st1 st2 hwfa
                rw [hst]
                exact hpool
              · exact ih _ _ h
        · rw [if_neg he] at h
          rw [Option.some.injEq, Prod.mk.injEq] at h
          obtain ⟨h1, -⟩ := h
          injection h1 with h3
          exact absurd h3 he
      · simp only [] at h
        rcases hw : waitForAll env st1 with ⟨rw1, stw⟩
        rw [hw] at h
        rw [Option.some.injEq, Prod.mk.injEq] at h
        obtain ⟨h1, h2⟩ := h
        subst h1; subst h2
        unfold waitForAll at hw
        exact absurd rfl (waitForAll_err_ne_cycle env _ _ _ _ hw)
      · simp only [] at h
        rcases hwar : waitAndRun env (k + 1) st1 cmd with - | ⟨r2, st2⟩
        · rw [hwar] at h; cases h
        · rw [hwar] at h
          rcases r2 with e2 | u
          · simp only [] at h
            rw [Option.some.injEq, Prod.mk.injEq] at h
            obtain ⟨h1, h2⟩ := h
            injection h1 with h3
            exact absurd h3
              (waitAndRun_err_ne_cycle env cmd (k + 1) st1 e2 st2 hwar)
          · exact ih _ _ h

/-- C4 part (c): on the concrete state whose two queued object commands
require each other with nothing built, nothing to fetch and nothing
running, `build` returns `DependencyCycle` with no child ever spawned —
whatever the environment, which is never consulted. -/
theorem build_cycle_scenario (env : SchedEnv) (fuel : Nat) :
    build env (fuel + 1) c4St = some (.error RError.dependencyCycle, c4St) ∧
    c4St.spawned = [] :=
  ⟨rfl, rfl⟩

/-- C4: (a) `select_command` signals `DependencyCycle` exactly in the
no-ready / empty-dep-queue / non-empty-command-queue situation; (b)
`build_with_pool` propagates that error only with an empty pool; (c) on
the two-command cycle with nothing running, `build` returns
`DependencyCycle` without spawning anything. -/
theorem c4_cycle_detection :
    (∀ (env : SchedEnv) (fuel : Nat) (st : BSt),
      (selectScan st.built st.commandQueue).2 = none →
      st.depQueue = [] → st.commandQueue ≠ [] →
      selectCommand env (fuel + 1) st
        = some (.error RError.dependencyCycle,
            { st with commandQueue := (selectScan st.built st.commandQueue).1 })) ∧
    (∀ (env : SchedEnv) (fuel : Nat) (st st' : BSt),
      buildWithPool env fuel st = some (.error RError.dependencyCycle, st') →
      st'.pool = []) ∧
    (∀ (env : SchedEnv) (fuel : Nat),
      build env (fuel + 1) c4St = some (.error RError.dependencyCycle, c4St) ∧
      c4St.spawned = []) :=
  ⟨selectCommand_signals_cycle,
   fun env fuel st st' => buildWithPool_cycle_pool_empty env fuel st st',
   build_cycle_scenario⟩

/-- C4 witness: the three parts applied at the concrete cyclic state and
the trivial environment. -/
theorem c4_witness :
    selectCommand envTriv 1 c4St
      = some (.error RError.dependencyCycle,
          { c4St with commandQueue := (selectScan c4St.built c4St.commandQueue).1 }) ∧
    c4St.pool = [] ∧
    (build envTriv 1 c4St = some (.error RError.dependencyCycle, c4St) ∧
      c4St.spawned = []) :=
  ⟨c4_cycle_detection.1 envTriv 0 c4St (by decide) (by decide) (by decide),
   c4_cycle_detection.2.1 envTriv 2 c4St c4St (by decide),
   c4_cycle_detection.2.2 envTriv 0⟩

/-!
### C2: reap accounting

Every lemma below tracks the ghost logs `spawned`, `reaped`,
`wfallDropped` and `killedAttempted` together with `pool` through the
scheduler: the invariant is that each spawned child is accounted for
(reaped, dropped by the failed wait of `wait_for_all`, or
kill-attempted by the drain) or still sits in the pool.
-/

theorem sameProc_trans {a b c : BSt} (h1 : sameProc a b) (h2 : sameProc b c) :
    sameProc a c :=
  ⟨h2.1.trans h1.1, h2.2.1.trans h1.2.1, h2.2.2.1.trans h1.2.2.1,
   h2.2.2.2.1.trans h1.2.2.2.1, h2.2.2.2.2.trans h1.2.2.2.2⟩

theorem accounted_mono {st st' : BSt} {c : Nat} (h : accounted st c)
    (hr : ∀ x ∈ st.reaped, x ∈ st'.reaped)
    (hw : ∀ x ∈ st.wfallDropped, x ∈ st'.wfallDropped)
    (hk : ∀ x ∈ st.killedAttempted, x ∈ st'.killedAttempted) :
    accounted st' c := by
  rcases h with h | h | h
  · exact Or.inl (hr c h)
  · exact Or.inr (Or.inl (hw c h))
  · exact Or.inr (Or.inr (hk c h))

theorem reapInv_mono {st st' : BSt} (hi : ReapInv st)
    (hs : st'.spawned = st.spawned) (hp : st'.pool = st.pool)
    (hr : ∀ x ∈ st.reaped, x ∈ st'.reaped)
    (hw : ∀ x ∈ st.wfallDropped, x ∈ st'.wfallDropped)
    (hk : ∀ x ∈ st.killedAttempted, x ∈ st'.killedAttempted) :
    ReapInv st' := by
  intro c hc
  rw [hs] at hc
  refine (hi c hc).imp (fun ha => accounted_mono ha hr hw hk) ?_
  intro hx
  have hx1 : c ∈ st.pool.map Prod.fst := hx
  rw [← hp] at hx1
  exact hx1

theorem sameProc_reapInv {a b : BSt} (h : sameProc a b) (hi : ReapInv a) :
    ReapInv b := by
  obtain ⟨hp, hs, hr, hw, hk⟩ := h
  exact reapInv_mono hi hs hp (fun x hx => hr ▸ hx) (fun x hx => hw ▸ hx)
    (fun x hx => hk ▸ hx)

theorem mem_fst_decomp {c : Nat} {bef aft : List (Nat × QCommand)}
    {entry : Nat × QCommand}
    (h : c ∈ (bef ++ entry :: aft).map Prod.fst) :
    c ∈ bef.map Prod.fst ∨ c = entry.1 ∨ c ∈ aft.map Prod.fst := by
  simp only [List.map_append, List.map_cons, List.mem_append,
    List.mem_cons] at h
  tauto

theorem mem_fst_compose {c : Nat} {bef aft : List (Nat × QCommand)}
    {entry : Nat × QCommand}
    (h : c ∈ bef.map Prod.fst ∨ c = entry.1 ∨ c ∈ aft.map Prod.fst) :
    c ∈ (bef ++ entry :: aft).map Prod.fst := by
  simp only [List.map_append, List.map_cons, List.mem_append, List.mem_cons]
  tauto

theorem mem_fst_snoc_decomp {c : Nat} {l : List (Nat × QCommand)}
    {e : Nat × QCommand} (h : c ∈ (l ++ [e]).map Prod.fst) :
    c ∈ l.map Prod.fst ∨ c = e.1 := by
  simp only [List.map_append, List.map_cons, List.map_nil, List.mem_append,
    List.mem_cons, List.not_mem_nil, or_false] at h
  exact h

theorem mem_fst_snoc_compose {c : Nat} {l : List (Nat × QCommand)}
    {e : Nat × QCommand} (h : c ∈ l.map Prod.fst ∨ c = e.1) :
    c ∈ (l ++ [e]).map Prod.fst := by
  simp only [List.map_append, List.map_cons, List.map_nil, List.mem_append,
    List.mem_cons, List.not_mem_nil, or_false]
  exact h

theorem mem_fst_mid_assoc {c : Nat} {bef aft : List (Nat × QCommand)}
    {x : Nat × QCommand}
    (h : c ∈ bef.map Prod.fst ∨ c = x.1 ∨ c ∈ aft.map Prod.fst) :
    c ∈ ((bef ++ [x]) ++ aft).map Prod.fst := by
  rw [List.append_assoc, List.singleton_append]
  exact mem_fst_compose h

theorem fetchCommand_sameProc (env : SchedEnv) (st : BSt)
    (r : Except RError (Option QCommand)) (st' : BSt)
    (h : fetchCommand env st = (r, st')) : sameProc st st' := by
  unfold fetchCommand at h
  iterate 6 (all_goals (try simp only [] at h); all_goals (try split at h))
  all_goals rw [Prod.mk.injEq] at h
  all_goals obtain ⟨-, h2⟩ := h
  all_goals subst h2
  all_goals simp [sameProc]

theorem selectFetchLoop_sameProc (env : SchedEnv) :
    ∀ (fuel : Nat) (st : BSt) (r : Except RError (Option QCommand))
      (st' : BSt),
      selectFetchLoop env fuel st = some (r, st') → sameProc st st' := by
  intro fuel
  induction fuel with
  | zero => intro st r st' h; cases h
  | succ k ih =>
    intro st r st' h
    unfold selectFetchLoop at h
    rcases hf : fetchCommand env st with ⟨rf, st1⟩
    rw [hf] at h
    have hsp := fetchCommand_sameProc env st rf st1 hf
    rcases rf with e | oc
    · simp only [] at h
      rw [Option.some.injEq, Prod.mk.injEq] at h
      obtain ⟨-, h2⟩ := h
      subst h2
      exact hsp
    · rcases oc with - | c
      · simp only [] at h
        rw [Option.some.injEq, Prod.mk.injEq] at h
        obtain ⟨-, h2⟩ := h
        subst h2
        exact hsp
      · simp only [] at h
        split at h
        · rw [Option.some.injEq, Prod.mk.injEq] at h
          obtain ⟨-, h2⟩ := h
          subst h2
          exact hsp
        · have h3 := ih _ _ _ h
          exact sameProc_trans
            (sameProc_trans hsp (by simp [sameProc])) h3

theorem selectCommand_sameProc (env : SchedEnv) (fuel : Nat) (st : BSt)
    (r : Except RError (Option QCommand)) (st' : BSt)
    (h : selectCommand env fuel st = some (r, st')) : sameProc st st' := by
  unfold selectCommand at h
  rcases hs : selectScan st.built st.commandQueue with ⟨cq1, oc⟩
  rw [hs] at h
  rcases oc with - | c
  · simp only [] at h
    have h2 := selectFetchLoop_sameProc env fuel
      { st with commandQueue := cq1 } r st' h
    exact sameProc_trans (by simp [sameProc]) h2
  · simp only [] at h
    rw [Option.some.injEq, Prod.mk.injEq] at h
    obtain ⟨-, h2⟩ := h
    subst h2
    simp [sameProc]

theorem cmdRunM_err (env : SchedEnv) (st : BSt) (e : OErr) (st' : BSt)
    (h : cmdRunM env st = (.error e, st')) : sameProc st st' := by
  unfold cmdRunM at h
  split at h
  · rw [Prod.mk.injEq] at h
    obtain ⟨-, h2⟩ := h
    subst h2
    simp [sameProc]
  · rw [Prod.mk.injEq] at h
    exact Except.noConfusion h.1

theorem cmdRunM_ok (env : SchedEnv) (st : BSt) (child : Nat) (st' : BSt)
    (h : cmdRunM env st = (.ok child, st')) :
    st'.pool = st.pool ∧ st'.reaped = st.reaped ∧
    st'.wfallDropped = st.wfallDropped ∧
    st'.killedAttempted = st.killedAttempted ∧
    st'.spawned = st.spawned ++ [child] := by
  unfold cmdRunM at h
  split at h
  · rw [Prod.mk.injEq] at h
    exact Except.noConfusion h.1
  · rw [Prod.mk.injEq] at h
    obtain ⟨h1, h2⟩ := h
    subst h2
    injection h1 with h3
    subst h3
    exact ⟨rfl, rfl, rfl, rfl, rfl⟩

theorem pollScan_decomp (env : SchedEnv) :
    ∀ (pool : List (Nat × QCommand)) (tick : Nat) (hit : PollHit),
      (pollScan env tick pool).res = .ok (some hit) →
      pool = hit.bef ++ hit.entry :: hit.aft := by
  intro pool
  induction pool with
  | nil =>
    intro tick hit h
    rw [pollScan] at h
    simp only [] at h
    rw [Except.ok.injEq] at h
    exact Option.noConfusion h
  | cons e rest ih =>
    intro tick hit h
    unfold pollScan at h
    rcases hw : env.tryWaitQ tick e.1 with err | os
    · rw [hw] at h
      simp only [] at h
      exact Except.noConfusion h
    · rcases os with - | status
      · rw [hw] at h
        simp only [] at h
        rcases hres : (pollScan env (tick + 1) rest).res with err | os2
        · rw [hres] at h
          simp only [] at h
          exact Except.noConfusion h
        · rcases os2 with - | hit1
          · rw [hres] at h
            simp only [] at h
            rw [Except.ok.injEq] at h
            exact Option.noConfusion h
          · rw [hres] at h
            simp only [] at h
            rw [Except.ok.injEq, Option.some.injEq] at h
            subst h
            have h4 := ih (tick + 1) hit1 hres
            rw [List.cons_append, ← h4]
      · rw [hw] at h
        simp only [] at h
        rw [Except.ok.injEq, Option.some.injEq] at h
        subst h
        rfl

theorem warLoop_reapInv (env : SchedEnv) (cmd : QCommand) :
    ∀ (fuel : Nat) (st : BSt) (r : Except RError Unit) (st' : BSt),
      warLoop env cmd fuel st = some (r, st') → ReapInv st → ReapInv st' := by
  intro fuel
  induction fuel with
  | zero => intro st r st' h hi; cases h
  | succ k ih =>
    intro st r st' h hi
    unfold warLoop at h
    rcases hps : (pollScan env st.tick st.pool).res with e | ohit
    · rw [hps] at h
      simp only [] at h
      rw [Option.some.injEq, Prod.mk.injEq] at h
      obtain ⟨-, h2⟩ := h
      subst h2
      exact reapInv_mono hi rfl rfl (fun x hx => hx) (fun x hx => hx)
        (fun x hx => hx)
    · rcases ohit with - | hit
      · rw [hps] at h
        simp only [] at h
        exact ih _ _ _ h
          (reapInv_mono hi rfl rfl (fun x hx => hx) (fun x hx => hx)
            (fun x hx => hx))
      · rw [hps] at h
        simp only [] at h
        split at h
        · rw [Option.some.injEq, Prod.mk.injEq] at h
          obtain ⟨-, h2⟩ := h
          subst h2
          exact reapInv_mono hi rfl rfl
            (fun x hx => List.mem_append_left _ hx) (fun x hx => hx)
            (fun x hx => hx)
        · rcases hcr : cmdRunM env
            { st with
              tick := (pollScan env st.tick st.pool).tickOut,
              reaped := st.reaped ++ [hit.entry.1] } with ⟨rc, st2⟩
          rw [hcr] at h
          rcases rc with e2 | child
          · simp only [] at h
            rw [Option.some.injEq, Prod.mk.injEq] at h
            obtain ⟨-, h2⟩ := h
            subst h2
            exact sameProc_reapInv (cmdRunM_err env _ e2 st2 hcr)
              (reapInv_mono hi rfl rfl
                (fun x hx => List.mem_append_left _ hx) (fun x hx => hx)
                (fun x hx => hx))
          · simp only [] at h
            rw [Option.some.injEq, Prod.mk.injEq] at h
            obtain ⟨-, h2⟩ := h
            subst h2
            obtain ⟨h2p, h2r, h2w, h2k, h2s⟩ := cmdRunM_ok env _ child st2 hcr
            intro c hc
            have hc0 : c ∈ st2.spawned := hc
            rw [h2s] at hc0
            rcases List.mem_append.mp hc0 with hc1 | hc2
            · have hc1a : c ∈ st.spawned := hc1
              rcases hi c hc1a with hacc | hpool
              · refine Or.inl (accounted_mono hacc ?_ ?_ ?_)
                · intro x hx
                  show x ∈ st2.reaped
                  rw [h2r]
                  exact List.mem_append_left _ hx
                · intro x hx
                  show x ∈ st2.wfallDropped
                  rw [h2w]
                  exact hx
                · intro x hx
                  show x ∈ st2.killedAttempted
                  rw [h2k]
                  exact hx
              · have hdec := pollScan_decomp env st.pool st.tick hit hps
                have hplist :
                    c ∈ (hit.bef ++ hit.entry :: hit.aft).map Prod.fst := by
                  have h0 : c ∈ st.pool.map Prod.fst := hpool
                  rw [hdec] at h0
                  exact h0
                rcases mem_fst_decomp hplist with hb | hcm | ha
                · refine Or.inr ?_
                  show c ∈ ((hit.bef ++ [(child, cmd)]) ++ hit.aft).map Prod.fst
                  exact mem_fst_mid_assoc (Or.inl hb)
                · subst hcm
                  refine Or.inl (Or.inl ?_)
                  show hit.entry.1 ∈ st2.reaped
                  rw [h2r]
                  exact List.mem_append_right _ (List.mem_singleton.mpr rfl)
                · refine Or.inr ?_
                  show c ∈ ((hit.bef ++ [(child, cmd)]) ++ hit.aft).map Prod.fst
                  exact mem_fst_mid_assoc (Or.inr (Or.inr ha))
            · rw [List.mem_singleton] at hc2
              subst hc2
              refine Or.inr ?_
              show c ∈ ((hit.bef ++ [(c, cmd)]) ++ hit.aft).map Prod.fst
              exact mem_fst_mid_assoc (Or.inr (Or.inl rfl))

theorem waitAndRun_reapInv (env : SchedEnv) (fuel : Nat) (st : BSt)
    (cmd : QCommand) (r : Except RError Unit) (st' : BSt)
    (h : waitAndRun env fuel st cmd = some (r, st')) (hi : ReapInv st) :
    ReapInv st' := by
  unfold waitAndRun at h
  split at h
  · rcases hcr : cmdRunM env st with ⟨rc, st1⟩
    rw [hcr] at h
    rcases rc with e | child
    · simp only [] at h
      rw [Option.some.injEq, Prod.mk.injEq] at h
      obtain ⟨-, h2⟩ := h
      subst h2
      exact sameProc_reapInv (cmdRunM_err env st e st1 hcr) hi
    · simp only [] at h
      rw [Option.some.injEq, Prod.mk.injEq] at h
      obtain ⟨-, h2⟩ := h
      subst h2
      obtain ⟨h2p, h2r, h2w, h2k, h2s⟩ := cmdRunM_ok env st child st1 hcr
      intro c hc
      have hc0 : c ∈ st1.spawned := hc
      rw [h2s] at hc0
      rcases List.mem_append.mp hc0 with hc1 | hc2
      · rcases hi c hc1 with hacc | hpool
        · refine Or.inl (accounted_mono hacc ?_ ?_ ?_)
          · intro x hx
            show x ∈ st1.reaped
            rw [h2r]
            exact hx
          · intro x hx
            show x ∈ st1.wfallDropped
            rw [h2w]
            exact hx
          · intro x hx
            show x ∈ st1.killedAttempted
            rw [h2k]
            exact hx
        · refine Or.inr ?_
          show c ∈ (st1.pool ++ [(child, cmd)]).map Prod.fst
          refine mem_fst_snoc_compose (Or.inl ?_)
          have h0 : c ∈ st.pool.map Prod.fst := hpool
          rw [← h2p] at h0
          exact h0
      · rw [List.mem_singleton] at hc2
        subst hc2
        refine Or.inr ?_
        show c ∈ (st1.pool ++ [(c, cmd)]).map Prod.fst
        exact mem_fst_snoc_compose (Or.inr rfl)
  · exact warLoop_reapInv env cmd fuel st r st' h hi

theorem swapRemoveParts_mem (x : Nat × QCommand)
    (bef aft : List (Nat × QCommand)) :
    x ∈ swapRemoveParts bef aft ↔ x ∈ bef ∨ x ∈ aft := by
  unfold swapRemoveParts
  cases haft : aft.reverse with
  | nil =>
    have ha : aft = [] := by
      have h0 := congrArg List.reverse haft
      simpa using h0
    simp [ha]
  | cons y revRest =>
    have ha : aft = revRest.reverse ++ [y] := by
      have h0 := congrArg List.reverse haft
      simpa using h0
    rw [ha]
    simp only [List.mem_append, List.mem_cons, List.mem_singleton,
      List.not_mem_nil]
    tauto

theorem swapRemoveParts_mem_fst (c : Nat)
    (bef aft : List (Nat × QCommand))
    (h : c ∈ bef.map Prod.fst ∨ c ∈ aft.map Prod.fst) :
    c ∈ (swapRemoveParts bef aft).map Prod.fst := by
  rcases h with h | h
  · obtain ⟨p, hp, he⟩ := List.mem_map.mp h
    exact List.mem_map.mpr
      ⟨p, (swapRemoveParts_mem p bef aft).mpr (Or.inl hp), he⟩
  · obtain ⟨p, hp, he⟩ := List.mem_map.mp h
    exact List.mem_map.mpr
      ⟨p, (swapRemoveParts_mem p bef aft).mpr (Or.inr hp), he⟩

theorem wfaLoop_reapInv (env : SchedEnv) :
    ∀ (fuel : Nat) (st : BSt) (r : Except RError Bool) (st' : BSt),
      wfaLoop env fuel st = some (r, st') → ReapInv st → ReapInv st' := by
  intro fuel
  induction fuel with
  | zero => intro st r st' h hi; cases h
  | succ k ih =>
    intro st r st' h hi
    unfold wfaLoop at h
    rcases hps : (pollScan env st.tick st.pool).res with e | ohit
    · rw [hps] at h
      simp only [] at h
      rw [Option.some.injEq, Prod.mk.injEq] at h
      obtain ⟨-, h2⟩ := h
      subst h2
      exact reapInv_mono hi rfl rfl (fun x hx => hx) (fun x hx => hx)
        (fun x hx => hx)
    · rcases ohit with - | hit
      · rw [hps] at h
        simp only [] at h
        exact ih _ _ _ h
          (reapInv_mono hi rfl rfl (fun x hx => hx) (fun x hx => hx)
            (fun x hx => hx))
      · rw [hps] at h
        simp only [] at h
        split at h
        · rw [Option.some.injEq, Prod.mk.injEq] at h
          obtain ⟨-, h2⟩ := h
          subst h2
          exact reapInv_mono hi rfl rfl
            (fun x hx => List.mem_append_left _ hx) (fun x hx => hx)
            (fun x hx => hx)
        · rw [Option.some.injEq, Prod.mk.injEq] at h
          obtain ⟨-, h2⟩ := h
          subst h2
          intro c hc
          have hc1 : c ∈ st.spawned := hc
          rcases hi c hc1 with hacc | hpool
          · exact Or.inl (accounted_mono hacc
              (fun x hx => List.mem_append_left _ hx) (fun x hx => hx)
              (fun x hx => hx))
          · have hdec := pollScan_decomp env st.pool st.tick hit hps
            have hplist :
                c ∈ (hit.bef ++ hit.entry :: hit.aft).map Prod.fst := by
              have h0 : c ∈ st.pool.map Prod.fst := hpool
              rw [hdec] at h0
              exact h0
            rcases mem_fst_decomp hplist with hb | hcm | ha
            · refine Or.inr ?_
              show c ∈ (swapRemoveParts hit.bef hit.aft).map Prod.fst
              exact swapRemoveParts_mem_fst c hit.bef hit.aft (Or.inl hb)
            · subst hcm
              refine Or.inl (Or.inl ?_)
              show hit.entry.1 ∈ st.reaped ++ [hit.entry.1]
              exact List.mem_append_right _ (List.mem_singleton.mpr rfl)
            · refine Or.inr ?_
              show c ∈ (swapRemoveParts hit.bef hit.aft).map Prod.fst
              exact swapRemoveParts_mem_fst c hit.bef hit.aft (Or.inr ha)

theorem waitForAny_reapInv (env : SchedEnv) (fuel : Nat) (st : BSt)
    (r : Except RError Bool) (st' : BSt)
    (h : waitForAny env fuel st = some (r, st')) (hi : ReapInv st) :
    ReapInv st' := by
  unfold waitForAny at h
  split at h
  · rw [Option.some.injEq, Prod.mk.injEq] at h
    obtain ⟨-, h2⟩ := h
    subst h2
    exact hi
  · exact wfaLoop_reapInv env fuel st r st' h hi

theorem wfAllGo_reapInv (env : SchedEnv) :
    ∀ (rpool : List (Nat × QCommand)) (st : BSt) (r : Except RError Unit)
      (st' : BSt),
      st.pool = rpool.reverse → wfAllGo env st rpool = (r, st') →
      ReapInv st → ReapInv st' := by
  intro rpool
  induction rpool with
  | nil =>
    intro st r st' hp h hi
    rw [wfAllGo] at h
    rw [Prod.mk.injEq] at h
    obtain ⟨-, h2⟩ := h
    subst h2
    intro c hc
    have hc1 : c ∈ st.spawned := hc
    rcases hi c hc1 with hacc | hpool
    · exact Or.inl hacc
    · have h0 : c ∈ st.pool.map Prod.fst := hpool
      rw [hp] at h0
      simp at h0
  | cons e rest ih =>
    intro st r st' hp h hi
    rw [List.reverse_cons] at hp
    unfold wfAllGo at h
    rcases hw : env.waitQ st.tick e.1 with err | status
    · rw [hw] at h
      simp only [] at h
      rw [Prod.mk.injEq] at h
      obtain ⟨-, h2⟩ := h
      subst h2
      intro c hc
      have hc1 : c ∈ st.spawned := hc
      rcases hi c hc1 with hacc | hpool
      · exact Or.inl (accounted_mono hacc (fun x hx => hx)
          (fun x hx => List.mem_append_left _ hx) (fun x hx => hx))
      · have h0 : c ∈ (rest.reverse ++ [e]).map Prod.fst := by
          have h1 : c ∈ st.pool.map Prod.fst := hpool
          rw [hp] at h1
          exact h1
        rcases mem_fst_snoc_decomp h0 with hb | hcm
        · exact Or.inr hb
        · subst hcm
          refine Or.inl (Or.inr (Or.inl ?_))
          show e.1 ∈ st.wfallDropped ++ [e.1]
          exact List.mem_append_right _ (List.mem_singleton.mpr rfl)
    · rw [hw] at h
      simp only [] at h
      split at h
      · rw [Prod.mk.injEq] at h
        obtain ⟨-, h2⟩ := h
        subst h2
        intro c hc
        have hc1 : c ∈ st.spawned := hc
        rcases hi c hc1 with hacc | hpool
        · exact Or.inl (accounted_mono hacc
            (fun x hx => List.mem_append_left _ hx) (fun x hx => hx)
            (fun x hx => hx))
        · have h0 : c ∈ (rest.reverse ++ [e]).map Prod.fst := by
            have h1 : c ∈ st.pool.map Prod.fst := hpool
            rw [hp] at h1
            exact h1
          exact Or.inr h0
      · refine ih _ _ _ rfl h ?_
        intro c hc
        have hc1 : c ∈ st.spawned := hc
        rcases hi c hc1 with hacc | hpool
        · exact Or.inl (accounted_mono hacc
            (fun x hx => List.mem_append_left _ hx) (fun x hx => hx)
            (fun x hx => hx))
        · have h0 : c ∈ (rest.reverse ++ [e]).map Prod.fst := by
            have h1 : c ∈ st.pool.map Prod.fst := hpool
            rw [hp] at h1
            exact h1
          rcases mem_fst_snoc_decomp h0 with hb | hcm
          · exact Or.inr hb
          · subst hcm
            refine Or.inl (Or.inl ?_)
            show e.1 ∈ st.reaped ++ [e.1]
            exact List.mem_append_right _ (List.mem_singleton.mpr rfl)

theorem waitForAll_reapInv (env : SchedEnv) (st : BSt)
    (r : Except RError Unit) (st' : BSt)
    (h : waitForAll env st = (r, st')) (hi : ReapInv st) : ReapInv st' :=
  wfAllGo_reapInv env st.pool.reverse st r st'
    (List.reverse_reverse st.pool).symm h hi

theorem wfAllGo_ok_pool_empty (env : SchedEnv) :
    ∀ (rpool : List (Nat × QCommand)) (st : BSt) (u : Unit) (st' : BSt),
      wfAllGo env st rpool = (.ok u, st') → st'.pool = [] := by
  intro rpool
  induction rpool with
  | nil =>
    intro st u st' h
    rw [wfAllGo] at h
    rw [Prod.mk.injEq] at h
    obtain ⟨-, h2⟩ := h
    subst h2
    rfl
  | cons e rest ih =>
    intro st u st' h
    unfold wfAllGo at h
    rcases hw : env.waitQ st.tick e.1 with err | status
    · rw [hw] at h
      simp only [] at h
      rw [Prod.mk.injEq] at h
      exact Except.noConfusion h.1
    · rw [hw] at h
      simp only [] at h
      split at h
      · rw [Prod.mk.injEq] at h
        exact Except.noConfusion h.1
      · exact ih _ _ _ h

theorem waitForAll_ok_pool_empty (env : SchedEnv) (st : BSt) (u : Unit)
    (st' : BSt) (h : waitForAll env st = (.ok u, st')) : st'.pool = [] :=
  wfAllGo_ok_pool_empty env st.pool.reverse st u st' h

theorem buildWithPool_reapInv (env : SchedEnv) :
    ∀ (fuel : Nat) (st : BSt) (r : Except RError Unit) (st' : BSt),
      buildWithPool env fuel st = some (r, st') →
      ReapInv st → ReapInv st' := by
  intro fuel
  induction fuel with
  | zero => intro st r st' h hi; cases h
  | succ k ih =>
    intro st r st' h hi
    unfold buildWithPool at h
    rcases hsel : selectCommand env (k + 1) st with - | ⟨r1, st1⟩
    · rw [hsel] at h; cases h
    · rw [hsel] at h
      have hi1 : ReapInv st1 :=
        sameProc_reapInv (selectCommand_sameProc env (k + 1) st r1 st1 hsel) hi
      rcases r1 with e | oc
      · simp only [] at h
        split at h
        · rcases hwfa : waitForAny env (k + 1) st1 with - | ⟨r3, st2⟩
          · rw [hwfa] at h; cases h
          · rw [hwfa] at h
            have hi2 : ReapInv st2 :=
              waitForAny_reapInv env (k + 1) st1 r3 st2 hwfa hi1
            rcases r3 with e2 | b
            · simp only [] at h
              rw [Option.some.injEq, Prod.mk.injEq] at h
              obtain ⟨-, h2⟩ := h
              subst h2
              exact hi2
            · cases b
              · simp only [] at h
                rw [Option.some.injEq, Prod.mk.injEq] at h
                obtain ⟨-, h2⟩ := h
                subst h2
                exact hi2
              · exact ih _ _ _ h hi2
        · rw [Option.some.injEq, Prod.mk.injEq] at h
          obtain ⟨-, h2⟩ := h
          subst h2
          exact hi1
      · rcases oc with - | cmd
        · simp only [] at h
          rcases hw : waitForAll env st1 with ⟨rw1, stw⟩
          rw [hw] at h
          rw [Option.some.injEq, Prod.mk.injEq] at h
          obtain ⟨-, h2⟩ := h
          subst h2
          exact waitForAll_reapInv env st1 rw1 stw hw hi1
        · simp only [] at h
          rcases hwar : waitAndRun env (k + 1) st1 cmd with - | ⟨r2, st2⟩
          · rw [hwar] at h; cases h
          · rw [hwar] at h
            have hi2 : ReapInv st2 :=
              waitAndRun_reapInv env (k + 1) st1 cmd r2 st2 hwar hi1
            rcases r2 with e2 | u
            · simp only [] at h
              rw [Option.some.injEq, Prod.mk.injEq] at h
              obtain ⟨-, h2⟩ := h
              subst h2
              exact hi2
            · exact ih _ _ _ h hi2

theorem buildWithPool_ok_pool_empty (env : SchedEnv) :
    ∀ (fuel : Nat) (st : BSt) (u : Unit) (st' : BSt),
      buildWithPool env fuel st = some (.ok u, st') → st'.pool = [] := by
  intro fuel
  induction fuel with
  | zero => intro st u st' h; cases h
  | succ k ih =>
    intro st u st' h
    unfold buildWithPool at h
    rcases hsel : selectCommand env (k + 1) st with - | ⟨r1, st1⟩
    · rw [hsel] at h; cases h
    · rw [hsel] at h
      rcases r1 with e | oc
      · simp only [] at h
        split at h
        · rcases hwfa : waitForAny env (k + 1) st1 with - | ⟨r3, st2⟩
          · rw [hwfa] at h; cases h
          · rw [hwfa] at h
            rcases r3 with e2 | b
            · simp only [] at h
              rw [Option.some.injEq, Prod.mk.injEq] at h
              exact Except.noConfusion h.1
            · cases b
              · simp only [] at h
                rw [Option.some.injEq, Prod.mk.injEq] at h
                exact Except.noConfusion h.1
              · exact ih _ _ _ h
        · rw [Option.some.injEq, Prod.mk.injEq] at h
          exact Except.noConfusion h.1
      · rcases oc with - | cmd
        · simp only [] at h
          rcases hw : waitForAll env st1 with ⟨rw1, stw⟩
          rw [hw] at h
          rw [Option.some.injEq, Prod.mk.injEq] at h
          obtain ⟨h1, h2⟩ := h
          rw [h1] at hw
          rw [← h2]
          exact waitForAll_ok_pool_empty env st1 u stw hw
        · simp only [] at h
          rcases hwar : waitAndRun env (k + 1) st1 cmd with - | ⟨r2, st2⟩
          · rw [hwar] at h; cases h
          · rw [hwar] at h
            rcases r2 with e2 | u2
            · simp only [] at h
              rw [Option.some.injEq, Prod.mk.injEq] at h
              exact Except.noConfusion h.1
            · exact ih _ _ _ h

theorem drainGo_spawned (env : SchedEnv) :
    ∀ (l : List (Nat × QCommand)) (st : BSt),
      (drainGo env st l).spawned = st.spawned := by
  intro l
  induction l with
  | nil => intro st; rfl
  | cons e rest ih =>
    intro st
    unfold drainGo
    split <;> simp [ih]

theorem drainGo_acc (env : SchedEnv) :
    ∀ (l : List (Nat × QCommand)) (st : BSt) (c : Nat),
      (accounted st c ∨ c ∈ l.map Prod.fst) →
      accounted (drainGo env st l) c := by
  intro l
  induction l with
  | nil =>
    intro st c h
    rcases h with h | h
    · exact h
    · simp at h
  | cons e rest ih =>
    intro st c h
    unfold drainGo
    split
    · apply ih
      rcases h with h | h
      · exact Or.inl (accounted_mono h
          (fun x hx => List.mem_append_left _ hx) (fun x hx => hx)
          (fun x hx => hx))
      · rw [List.map_cons, List.mem_cons] at h
        rcases h with h | h
        · subst h
          refine Or.inl (Or.inl ?_)
          show e.1 ∈ st.reaped ++ [e.1]
          exact List.mem_append_right _ (List.mem_singleton.mpr rfl)
        · exact Or.inr h
    · apply ih
      rcases h with h | h
      · exact Or.inl (accounted_mono h (fun x hx => hx) (fun x hx => hx)
          (fun x hx => List.mem_append_left _ hx))
      · rw [List.map_cons, List.mem_cons] at h
        rcases h with h | h
        · subst h
          refine Or.inl (Or.inr (Or.inr ?_))
          show e.1 ∈ st.killedAttempted ++ [e.1]
          exact List.mem_append_right _ (List.mem_singleton.mpr rfl)
        · exact Or.inr h

/-- C2 (amended): whatever the environment and whatever `build` returns
(success or any error), every child it spawned has been dealt with at
the return: reaped by a successful wait, dropped by a failed `wait`
inside `wait_for_all` (which returns early, before any kill), or
kill-attempted by the error-path drain of `build`.  The original claim
admits only the first and third fates; `c2_counterexample` shows the
second one occurs and leaves a child neither reaped nor killed. -/
theorem c2_amended_every_child_accounted (env : SchedEnv) (fuel : Nat)
    (tc : Nat) (bu : List DepFile) (dq : List Dependency)
    (cq : List QCommand) (r : Except RError Unit) (st' : BSt)
    (h : build env fuel (mkInit tc bu dq cq) = some (r, st')) :
    ∀ c ∈ st'.spawned,
      c ∈ st'.reaped ∨ c ∈ st'.wfallDropped ∨ c ∈ st'.killedAttempted := by
  have hi0 : ReapInv (mkInit tc bu dq cq) := by
    intro c hc
    simp [mkInit] at hc
  unfold build at h
  rcases hb : buildWithPool env fuel (mkInit tc bu dq cq) with - | ⟨r1, st1⟩
  · rw [hb] at h; cases h
  · rw [hb] at h
    have hi1 : ReapInv st1 := buildWithPool_reapInv env fuel _ r1 st1 hb hi0
    rcases r1 with e | u
    · simp only [] at h
      rw [Option.some.injEq, Prod.mk.injEq] at h
      obtain ⟨-, h2⟩ := h
      subst h2
      intro c hc
      rw [drainGo_spawned] at hc
      exact drainGo_acc env st1.pool st1 c
        ((hi1 c hc).imp (fun hx => hx) (fun hx => hx))
    · simp only [] at h
      rw [Option.some.injEq, Prod.mk.injEq] at h
      obtain ⟨-, h2⟩ := h
      subst h2
      intro c hc
      have hpe : st1.pool = [] := buildWithPool_ok_pool_empty env fuel _ u st1 hb
      rcases hi1 c hc with hacc | hpool
      · exact hacc
      · have h0 : c ∈ st1.pool.map Prod.fst := hpool
        rw [hpe] at h0
        simp at h0

/-- C2 witness: the amended theorem applied to the trivial environment
with nothing queued; `build` succeeds immediately with no child ever
spawned. -/
theorem c2_amended_witness :
    build envTriv 1 (mkInit 1 [] [] []) = some (.ok (), mkInit 1 [] [] []) ∧
    ∀ c ∈ (mkInit 1 [] [] []).spawned,
      c ∈ (mkInit 1 [] [] []).reaped ∨
        c ∈ (mkInit 1 [] [] []).wfallDropped ∨
        c ∈ (mkInit 1 [] [] []).killedAttempted :=
  ⟨rfl, c2_amended_every_child_accounted envTriv 1 1 [] [] [] (.ok ())
    (mkInit 1 [] [] []) rfl⟩

/-- C2 counterexample to the original claim: one ready command, a spawn
that succeeds, and a blocking `wait` that fails.  `build` spawns child 0
and returns the wait error, yet child 0 is neither reaped nor
kill-attempted — `wait_for_all` dropped it on the failed wait. -/
theorem c2_counterexample :
    c2Run.map (fun p =>
        (p.1, p.2.spawned, p.2.reaped, p.2.killedAttempted,
          p.2.wfallDropped))
      = some (.error (.io .other), [0], [], [], [0]) ∧
    ¬ (∀ p ∈ c2Run.toList, ∀ c ∈ p.2.spawned,
        c ∈ p.2.reaped ∨ c ∈ p.2.killedAttempted) := by
  constructor
  · rfl
  · decide

end Ccpp
